import Mathlib

/-!
# Snappy: a shallow embedding of the package installer and the policy composer

Go strings are embedded as Lean `String`s (the algorithms walk their
character lists), Go errors as `Option String` (`none` is Go's `nil`), and
the operating-system and repository operations a function performs are
passed in as an explicit environment acting on an abstract world state.

Part I holds the definitions, Part II the lemmas and theorems.
-/

set_option autoImplicit false

namespace Snappy

/-! ## Part I: definitions -/

/-! ### interfaces/apparmor/template_vars.go -/

/-- The fields of `snap.Info` read by `templateVariables`.  The type
`snap.Revision` is declared outside the embedded sources, so it is the type
parameter `Rev`; the `%s` verb renders it through `toString`. -/
structure Info (Rev : Type) where
  /-- The value of the method `Name()`. -/
  Name : String
  /-- The field `Revision`. -/
  Revision : Rev

/-- The fields of `snap.AppInfo` read by `templateVariables`. -/
structure AppInfo (Rev : Type) where
  /-- The field `Snap`. -/
  Snap : Info Rev
  /-- The field `Name`. -/
  Name : String

/-- One `fmt.Fprintf(&buf, pre + "%s" + post, arg)` on a buffer: the `%s`
verb inserts its argument as it is. -/
def Fprintf1 (buf pre arg post : String) : String :=
  buf ++ (pre ++ arg ++ post)

/-- The function `templateVariables`: four writes to an empty buffer. -/
def templateVariables {Rev : Type} [ToString Rev] (appInfo : AppInfo Rev) : String :=
  let buf := ""
  let buf := Fprintf1 buf "@\x7bAPP_NAME\x7d=\"" appInfo.Name "\"\n"
  let buf := Fprintf1 buf "@\x7bSNAP_NAME\x7d=\"" appInfo.Snap.Name "\"\n"
  let buf := Fprintf1 buf "@\x7bSNAP_REVISION\x7d=\"" (toString appInfo.Snap.Revision) "\"\n"
  let buf := buf ++ "@\x7bINSTALL_DIR\x7d=\"/snap\""
  buf

/-! ### interfaces/builtin/network.go -/

/-- The constant `networkConnectedPlugAppArmor`, one source line per line. -/
def networkConnectedPlugAppArmor : String :=
  "\n" ++
  "# Description: Can access the network as a client.\n" ++
  "# Usage: common\n" ++
  "#include <abstractions/nameservice>\n" ++
  "#include <abstractions/ssl_certs>\n" ++
  "\n" ++
  "@\x7bPROC\x7d/sys/net/core/somaxconn r,\n" ++
  "@\x7bPROC\x7d/sys/net/ipv4/tcp_fastopen r,\n"

/-- The constant `networkConnectedPlugSecComp`, one source line per line. -/
def networkConnectedPlugSecComp : String :=
  "\n" ++
  "# Description: Can access the network as a client.\n" ++
  "# Usage: common\n" ++
  "connect\n" ++
  "getpeername\n" ++
  "getsockname\n" ++
  "getsockopt\n" ++
  "recv\n" ++
  "recvfrom\n" ++
  "recvmmsg\n" ++
  "recvmsg\n" ++
  "send\n" ++
  "sendmmsg\n" ++
  "sendmsg\n" ++
  "sendto\n" ++
  "setsockopt\n" ++
  "shutdown\n" ++
  "\n" ++
  "# LP: #1446748 - limit this to AF_UNIX/AF_LOCAL and perhaps AF_NETLINK\n" ++
  "socket\n" ++
  "\n" ++
  "# This is an older interface and single entry point that can be used instead\n" ++
  "# of socket(), bind(), connect(), etc individually. While we could allow it,\n" ++
  "# we wouldn\x27t be able to properly arg filter socketcall for AF_INET/AF_INET6\n" ++
  "# when LP: #1446748 is implemented.\n" ++
  "socketcall\n"

/-- The struct `commonInterface` with the five fields that the literal in
`NewNetworkInterface` sets (its declaration is outside the embedded
sources). -/
structure commonInterface where
  /-- The field `name`. -/
  name : String
  /-- The field `connectedPlugAppArmor`. -/
  connectedPlugAppArmor : String
  /-- The field `connectedPlugSecComp`. -/
  connectedPlugSecComp : String
  /-- The field `reservedForOS`. -/
  reservedForOS : Bool
  /-- The field `autoConnect`. -/
  autoConnect : Bool
deriving DecidableEq

/-- The function `NewNetworkInterface`. -/
def NewNetworkInterface : commonInterface :=
  { name := "network"
    connectedPlugAppArmor := networkConnectedPlugAppArmor
    connectedPlugSecComp := networkConnectedPlugSecComp
    reservedForOS := true
    autoConnect := true }

/-- The two security systems an interface contributes a fragment to. -/
inductive SecuritySystem where
  | AppArmor
  | SecComp
deriving DecidableEq

/-- Modelled from the spec: the accessor of an interface's connected-plug
fragment (the methods of `commonInterface` are outside the embedded
sources).  Each interface declares "the two policy fragments
(mandatory-access-control, syscall-filter)". -/
def commonInterface.ConnectedPlugSnippet (iface : commonInterface) :
    SecuritySystem → String
  | .AppArmor => iface.connectedPlugAppArmor
  | .SecComp => iface.connectedPlugSecComp

/-- The type of a package: "application | OS | kernel-like". -/
inductive PackageType where
  | application
  | OS
  | kernel
deriving DecidableEq

/-- The failure of a connection named by the spec. -/
inductive ComposeError where
  | InterfaceNotAllowed
deriving DecidableEq

/-- Modelled from the spec: the connection of a plug of an application,
whose package has the given type, to an interface.  "An interface marked
`reservedForOS` must only be connectable by packages whose type is OS;
attempting otherwise fails with `InterfaceNotAllowed`". -/
def connectPlug (pkgType : PackageType) (iface : commonInterface) :
    Except ComposeError commonInterface :=
  if iface.reservedForOS && pkgType != PackageType.OS then
    .error .InterfaceNotAllowed
  else .ok iface

/-- The connection of every interface of a list in its order; the first
failure is the failure of the whole. -/
def connectAll (pkgType : PackageType) :
    List commonInterface → Except ComposeError (List commonInterface)
  | [] => .ok []
  | iface :: rest =>
    match connectPlug pkgType iface with
    | .error e => .error e
    | .ok connected =>
      match connectAll pkgType rest with
      | .error e => .error e
      | .ok more => .ok (connected :: more)

/-- Modelled from the spec: the connections of an application that declares
no explicit plug resolution.  "An interface marked `autoConnect` is connected
automatically for every application that declares no explicit plug
resolution"; the registry is a catalog of interfaces in registration order,
and each connection is subject to the rule of `connectPlug`. -/
def autoConnections (registry : List commonInterface) (pkgType : PackageType) :
    Except ComposeError (List commonInterface) :=
  connectAll pkgType (registry.filter (fun iface => iface.autoConnect))

/-- Modelled from the spec: the fragments a list of connections contributes
for one security system, "composition order is the declaration order of
connections; no sorting or deduplication is performed". -/
def connectedFragments (sys : SecuritySystem) (connections : List commonInterface) :
    List String :=
  connections.map (fun iface => iface.ConnectedPlugSnippet sys)

/-! ### Go library functions used by the snappy package -/

/-- Go's `os.IsPathSeparator` on Unix. -/
def isPathSeparator (c : Char) : Bool := c == '/'

/-- Go's `filepath.Base` on Unix, on the reversed character list: trailing
separators are stripped, then the characters after the last separator are
kept; the empty path gives `"."`, a path of separators only gives `"/"`. -/
def filepathBase (path : String) : String :=
  if path = "" then "."
  else
    let stripped := path.data.reverse.dropWhile isPathSeparator
    let last := (stripped.takeWhile (fun c => !isPathSeparator c)).reverse
    if last = [] then "/" else String.mk last

/-- The elements of a path between its separators (empty elements kept). -/
def splitSlash : List Char → List (List Char)
  | [] => [[]]
  | c :: cs =>
    if isPathSeparator c then [] :: splitSlash cs
    else
      match splitSlash cs with
      | [] => [[c]]
      | e :: es => (c :: e) :: es

/-- One element of Go's `filepath.Clean`, on the stack of kept elements
(last kept element first): empty and `.` elements are dropped, `..` removes
the element before it, is dropped at the root, and is kept at the start of a
relative path. -/
def cleanStep (rooted : Bool) (stack : List (List Char)) (e : List Char) :
    List (List Char) :=
  if e = [] ∨ e = ['.'] then stack
  else if e = ['.', '.'] then
    match stack with
    | [] => if rooted then [] else [e]
    | top :: rest =>
      if top = ['.', '.'] then (if rooted then stack else e :: stack) else rest
  else e :: stack

/-- Go's `filepath.Clean` on Unix. -/
def filepathClean (path : String) : String :=
  if path = "" then "."
  else
    let rooted := path.data.head? == some '/'
    let kept := ((splitSlash path.data).foldl (cleanStep rooted) []).reverse
    let out := (if rooted then "/" else "") ++
      String.intercalate "/" (kept.map String.mk)
    if out = "" then "." else out

/-- Go's `filepath.Join` of two elements on Unix: the elements from the first
non-empty one on are joined with a separator and cleaned. -/
def filepathJoin (a b : String) : String :=
  if a ≠ "" then filepathClean (a ++ "/" ++ b)
  else if b ≠ "" then filepathClean b
  else ""

/-- The texts of a list joined by a separator character between them. -/
def joinWith (sep : Char) : List (List Char) → List Char
  | [] => []
  | [e] => e
  | e :: next :: more => e ++ sep :: joinWith sep (next :: more)

/-- Whether a path element is a name: it is not empty, not `.` and not
`..`, and holds no separator. -/
def isPathName (e : List Char) : Bool :=
  e != [] && e != ['.'] && e != ['.', '.'] && e.all (fun c => c != '/')

/-- Go's `strings.Join`. -/
def stringsJoin (elems : List String) (sep : String) : String :=
  sep.intercalate elems

/-- Whether the first list starts with the second. -/
def startsWithChars : List Char → List Char → Bool
  | _, [] => true
  | [], _ :: _ => false
  | c :: cs, d :: ds => c == d && startsWithChars cs ds

/-- Whether the second list occurs in the first at some position. -/
def containsChars : List Char → List Char → Bool
  | [], sub => startsWithChars [] sub
  | c :: cs, sub => startsWithChars (c :: cs) sub || containsChars cs sub

/-- Go's `strings.Contains`. -/
def stringsContains (s substr : String) : Bool :=
  containsChars s.data substr.data

/-! ### snappy/click.go, as exercised by snappy/click_test.go

The file `click.go` is not among the embedded sources; its functions are
modelled from the specification and from the literals and assertions of
`click_test.go`. -/

/-- The fields of `packageYaml` set by the literals of `click_test.go`. -/
structure packageYaml where
  /-- The field `Name`. -/
  Name : String
  /-- The field `Version`. -/
  Version : String
deriving DecidableEq

/-- The fields of `Binary` set by the literals of `click_test.go`; a field a
literal leaves out is the empty string. -/
structure Binary where
  /-- The field `Name`. -/
  Name : String
  /-- The field `SecurityTemplate`. -/
  SecurityTemplate : String := ""
  /-- The field `SecurityPolicy`. -/
  SecurityPolicy : String := ""
deriving DecidableEq

/-- Modelled from the spec: the function `getBinaryAaProfile` of `click.go`.
"Profile-name resolution precedence for a binary: explicit security-policy
name, else explicit security-template name, else the generated
`{package}_{binary}_{version}` name", the binary being named by the last
element of its path as in `TestSnappyGetBinaryAaProfile`. -/
def getBinaryAaProfile (m : packageYaml) (binary : Binary) : String :=
  if binary.SecurityPolicy ≠ "" then binary.SecurityPolicy
  else if binary.SecurityTemplate ≠ "" then binary.SecurityTemplate
  else m.Name ++ "_" ++ filepathBase binary.Name ++ "_" ++ m.Version

/-- The opening lines of the wrapper: interpreter line, marker line and the
`##TARGET=` line. -/
def wrapperHeader (target : String) : String :=
  "#!/bin/sh\n" ++
  "# !!!never remove this line!!!\n" ++
  "##TARGET=" ++ target ++ "\n"

/-- The private temporary directory of the wrapper. -/
def wrapperTmpdir (name version : String) : String :=
  "\n" ++
  "set -e\n" ++
  "\n" ++
  "TMPDIR=\"/tmp/snapps/" ++ name ++ "/" ++ version ++ "/tmp\"\n" ++
  "if [ ! -d \"$TMPDIR\" ]; then\n" ++
  "    mkdir -p -m1777 \"$TMPDIR\"\n" ++
  "fi\n" ++
  "export TMPDIR\n" ++
  "export TEMPDIR=\"$TMPDIR\"\n" ++
  "\n"

/-- The exports of the deprecated `SNAPP_*` variables. -/
def wrapperDeprecatedExports (path : String) : String :=
  "# app paths (deprecated)\n" ++
  "export SNAPP_APP_PATH=\"" ++ path ++ "\"\n" ++
  "export SNAPP_APP_DATA_PATH=\"/var/lib/" ++ path ++ "\"\n" ++
  "export SNAPP_APP_USER_DATA_PATH=\"$HOME/" ++ path ++ "\"\n" ++
  "export SNAPP_APP_TMPDIR=\"$TMPDIR\"\n" ++
  "export SNAPP_OLD_PWD=\"$(pwd)\"\n"

/-- The exports of the current `SNAP_*` variables. -/
def wrapperCurrentExports (path : String) : String :=
  "# app paths\n" ++
  "export SNAP_APP_PATH=\"" ++ path ++ "\"\n" ++
  "export SNAP_APP_DATA_PATH=\"/var/lib/" ++ path ++ "\"\n" ++
  "export SNAP_APP_USER_DATA_PATH=\"$HOME/" ++ path ++ "\"\n" ++
  "export SNAP_APP_TMPDIR=\"$TMPDIR\"\n"

/-- The architecture export and the switch of the home directory. -/
def wrapperHome : String :=
  "\n" ++
  "# FIXME: this will need to become snappy arch or something\n" ++
  "export SNAPPY_APP_ARCH=\"$(dpkg --print-architecture)\"\n" ++
  "\n" ++
  "if [ ! -d \"$SNAP_APP_USER_DATA_PATH\" ]; then\n" ++
  "   mkdir -p \"$SNAP_APP_USER_DATA_PATH\"\n" ++
  "fi\n" ++
  "export HOME=\"$SNAP_APP_USER_DATA_PATH\"\n" ++
  "\n" ++
  "# export old pwd\n" ++
  "export SNAP_OLD_PWD=\"$(pwd)\"\n"

/-- The closing lines of the wrapper: the change of directory and the
confined invocation. -/
def wrapperExec (path aaProfile target : String) : String :=
  "cd " ++ path ++ "\n" ++
  "aa-exec -p " ++ aaProfile ++ " -- " ++ target ++ " \"$@\"\n"

/-- Modelled from the spec: the function `generateSnapBinaryWrapper` of
`click.go`, the "fixed structural template" of the shell wrapper, whose text
is that of `expectedWrapper` in `click_test.go` with the package path, the
package name and version, the profile name and the joined binary path put
back as the substituted values. -/
def generateSnapBinaryWrapper (binary : Binary) (pkgPath aaProfile : String)
    (m : packageYaml) : String :=
  let actualBinPath := filepathJoin pkgPath binary.Name
  wrapperHeader actualBinPath ++
  wrapperTmpdir m.Name m.Version ++
  wrapperDeprecatedExports pkgPath ++
  "\n" ++
  wrapperCurrentExports pkgPath ++
  wrapperHome ++
  wrapperExec pkgPath aaProfile actualBinPath

/-- The constant `expectedWrapper` of `click_test.go`, one source line per
line. -/
def expectedWrapper : String :=
  "#!/bin/sh\n" ++
  "# !!!never remove this line!!!\n" ++
  "##TARGET=/apps/pastebinit.mvo/1.4.0.0.1/bin/pastebinit\n" ++
  "\n" ++
  "set -e\n" ++
  "\n" ++
  "TMPDIR=\"/tmp/snapps/pastebinit.mvo/1.4.0.0.1/tmp\"\n" ++
  "if [ ! -d \"$TMPDIR\" ]; then\n" ++
  "    mkdir -p -m1777 \"$TMPDIR\"\n" ++
  "fi\n" ++
  "export TMPDIR\n" ++
  "export TEMPDIR=\"$TMPDIR\"\n" ++
  "\n" ++
  "# app paths (deprecated)\n" ++
  "export SNAPP_APP_PATH=\"/apps/pastebinit.mvo/1.4.0.0.1/\"\n" ++
  "export SNAPP_APP_DATA_PATH=\"/var/lib//apps/pastebinit.mvo/1.4.0.0.1/\"\n" ++
  "export SNAPP_APP_USER_DATA_PATH=\"$HOME//apps/pastebinit.mvo/1.4.0.0.1/\"\n" ++
  "export SNAPP_APP_TMPDIR=\"$TMPDIR\"\n" ++
  "export SNAPP_OLD_PWD=\"$(pwd)\"\n" ++
  "\n" ++
  "# app paths\n" ++
  "export SNAP_APP_PATH=\"/apps/pastebinit.mvo/1.4.0.0.1/\"\n" ++
  "export SNAP_APP_DATA_PATH=\"/var/lib//apps/pastebinit.mvo/1.4.0.0.1/\"\n" ++
  "export SNAP_APP_USER_DATA_PATH=\"$HOME//apps/pastebinit.mvo/1.4.0.0.1/\"\n" ++
  "export SNAP_APP_TMPDIR=\"$TMPDIR\"\n" ++
  "\n" ++
  "# FIXME: this will need to become snappy arch or something\n" ++
  "export SNAPPY_APP_ARCH=\"$(dpkg --print-architecture)\"\n" ++
  "\n" ++
  "if [ ! -d \"$SNAP_APP_USER_DATA_PATH\" ]; then\n" ++
  "   mkdir -p \"$SNAP_APP_USER_DATA_PATH\"\n" ++
  "fi\n" ++
  "export HOME=\"$SNAP_APP_USER_DATA_PATH\"\n" ++
  "\n" ++
  "# export old pwd\n" ++
  "export SNAP_OLD_PWD=\"$(pwd)\"\n" ++
  "cd /apps/pastebinit.mvo/1.4.0.0.1/\n" ++
  "aa-exec -p pastebinit.mvo_pastebinit_1.4.0.0.1 -- /apps/pastebinit.mvo/1.4.0.0.1/bin/pastebinit \"$@\"\n"

/-- The struct `clickHook` with the four fields `TestReadClickHookFile`
reads. -/
structure clickHook where
  /-- The field `name`. -/
  name : String
  /-- The field `exec`. -/
  exec : String
  /-- The field `user`. -/
  user : String
  /-- The field `pattern`. -/
  pattern : String
deriving DecidableEq

/-- The failure of the hook registry named by the spec. -/
inductive HookError where
  | HookFileUnreadable
deriving DecidableEq

/-- The lines of a text, split at the newline character. -/
def splitLines : List Char → List (List Char)
  | [] => [[]]
  | c :: cs =>
    if c == '\n' then [] :: splitLines cs
    else
      match splitLines cs with
      | [] => [[c]]
      | l :: ls => (c :: l) :: ls

/-- Modelled from the spec: one line `Key: value` of the "plain-text
key-value format" of a hook definition file.  The key is the text before the
first colon, the value the text after it without the blanks that follow the
colon; a line without a colon carries no entry. -/
def parseHookLine (line : List Char) : Option (String × String) :=
  match line.dropWhile (fun c => c != ':') with
  | [] => none
  | _ :: value =>
    some (String.mk (line.takeWhile (fun c => c != ':')),
      String.mk (value.dropWhile (fun c => c == ' ')))

/-- Modelled from the spec: a hook definition file "parsed as a small
key-value document", its entries in the order of the lines. -/
def parseHookDocument (content : String) : List (String × String) :=
  (splitLines content.data).filterMap parseHookLine

/-- The value of a key of the document, the empty string when the key is
absent. -/
def documentGet (doc : List (String × String)) (key : String) : String :=
  (doc.lookup key).getD ""

/-- The base name of a file without its extension: the text of the last path
element before its final dot. -/
def baseNameWithoutExt (file : String) : String :=
  let base := filepathBase file
  match base.data.reverse.dropWhile (fun c => c != '.') with
  | [] => base
  | _ :: stem => String.mk stem.reverse

/-- Modelled from the spec: the function `readClickHookFile` of `click.go`.
The file is read through `ReadFile` (`none`: it cannot be read, the scan
"fails with `HookFileUnreadable`"); the recognized keys are `Hook-Name`,
`User`, `Exec` and `Pattern`; "if `Hook-Name` is absent, the hook's logical
name defaults to the file's base name (without extension)". -/
def readClickHookFile (ReadFile : String → Option String) (hookFile : String) :
    Except HookError clickHook :=
  match ReadFile hookFile with
  | none => .error .HookFileUnreadable
  | some content =>
    let doc := parseHookDocument content
    let name :=
      match doc.lookup "Hook-Name" with
      | some n => n
      | none => baseNameWithoutExt hookFile
    .ok { name := name
          exec := documentGet doc "Exec"
          user := documentGet doc "User"
          pattern := documentGet doc "Pattern" }

/-- A line of a hook definition file as it is written: an entry of a key
and a value, or a text that is no entry. -/
inductive HookLine where
  | entry (key value : String)
  | other (text : String)
deriving DecidableEq

/-- The characters of a line: an entry is written as the key, a colon, a
blank and the value. -/
def HookLine.chars : HookLine → List Char
  | .entry key value => key.data ++ ':' :: ' ' :: value.data
  | .other text => text.data

/-- Whether a line can be read back: it holds no newline; a key holds no
colon, a value does not start with a blank, and a text that is no entry
holds no colon. -/
def HookLine.wellFormed : HookLine → Bool
  | .entry key value =>
    key.data.all (fun c => c != ':' && c != '\n') && value.data.all (fun c => c != '\n')
      && value.data.head? != some ' '
  | .other text => text.data.all (fun c => c != ':' && c != '\n')

/-- The content of a hook definition file with the given lines. -/
def writeHookFile (lines : List HookLine) : String :=
  String.mk (joinWith '\n' (lines.map HookLine.chars))

/-- The entries among the lines, in their order. -/
def hookEntries : List HookLine → List (String × String)
  | [] => []
  | .entry key value :: rest => (key, value) :: hookEntries rest
  | .other _ :: rest => hookEntries rest

/-- A revision directory `<root>/<name>/<version>` of an installed
package. -/
structure RevisionDir where
  /-- The package name. -/
  name : String
  /-- The version. -/
  version : String
deriving DecidableEq

/-- Modelled from the spec: the installed revisions as they are found on
disk, "filesystem-as-database": the revision directories in the order of a
directory scan, and for each package name the target of its "current"
pointer. -/
structure SnapDisk where
  /-- The revision directories. -/
  revisions : List RevisionDir
  /-- The "current" pointers: package name and the version pointed at. -/
  current : List (String × String)

/-- Modelled from the spec: the method `IsActive` of an installed part, "a
flag derived from `is the current pointer target`, not a stored boolean". -/
def SnapDisk.IsActive (disk : SnapDisk) (d : RevisionDir) : Bool :=
  disk.current.lookup d.name == some d.version

/-- Modelled from the spec: the function `setActiveClick` of `click.go`,
"given a target revision directory, repoint `current` to it". -/
def setActiveClick (disk : SnapDisk) (baseDir : RevisionDir) : SnapDisk :=
  { disk with
    current := (baseDir.name, baseDir.version) ::
      disk.current.filter (fun p => p.1 != baseDir.name) }

/-- Modelled from the spec: what a successful `installClick` of a package
leaves on disk: the revision directory (step 1 of the install) and the
"current" pointer of the package repointed to it (step 6). -/
def installClickOnDisk (disk : SnapDisk) (d : RevisionDir) : SnapDisk :=
  setActiveClick
    { disk with
      revisions := if d ∈ disk.revisions then disk.revisions else disk.revisions ++ [d] }
    d

/-! ### snappy/install.go -/

/-- The type `InstallFlags`, a set of flag bits. -/
abbrev InstallFlags := Nat

/-- Modelled from the spec: the constant `AllowUnauthenticated`, declared
outside the embedded sources: the "allow unauthenticated" flag, the first
bit of `InstallFlags` (`click_test.go` tells it apart from the flags `0`). -/
def AllowUnauthenticated : InstallFlags := 1

/-- The variable `cloudMetaDataFile`. -/
def cloudMetaDataFile : String := "/var/lib/cloud/seed/nocloud-net/meta-data"

/-- The outcome of `os.Open` followed by `ioutil.ReadAll` on a file. -/
inductive ReadOutcome where
  | openError
  | readError
  | data (content : String)
deriving DecidableEq

/-- A part returned by the repository lookup, over the world state `σ`: its
`Name()`, its `IsInstalled()` and its `Install(pbar)`, which returns an error
(`none` is `nil`) and the world it leaves. -/
structure Part (σ : Type) where
  /-- The method `Name`. -/
  Name : String
  /-- The method `IsInstalled`. -/
  IsInstalled : σ → Bool
  /-- The method `Install`. -/
  Install : σ → Option String × σ

/-- The operations `Install` performs on the world, over its state `σ`. -/
structure Env (σ : Type) where
  /-- Whether `os.Stat(name)` returns no error. -/
  Stat : σ → String → Bool
  /-- The outcome of opening and reading a file. -/
  OpenRead : σ → String → ReadOutcome
  /-- The function `installClick(name, flags)`: its error and the world it
  leaves. -/
  installClick : String → InstallFlags → σ → Option String × σ
  /-- The method `m.Details(name)` of the meta repository: the parts found,
  its error, and the world it leaves. -/
  Details : String → σ → (List (Part σ) × Option String) × σ

/-- What `Install` does to the world, in order. -/
inductive Event (σ : Type) where
  /-- A call `installClick(name, flags)` made in the world `before`, and the
  error it returned. -/
  | installClick (name : String) (flags : InstallFlags) (before : σ)
      (result : Option String)
  /-- A call `part.Install(pbar)` and the error it returned. -/
  | partInstall (partName : String) (result : Option String)
  /-- A text printed on the standard output. -/
  | printed (text : String)

/-- The function `inDeveloperMode`. -/
def inDeveloperMode {σ : Type} (env : Env σ) (w : σ) : Bool :=
  match env.OpenRead w cloudMetaDataFile with
  | .openError => false
  | .readError => false
  | .data data =>
    let needle := "public-keys:\n"
    if stringsContains data needle then true else false

/-- The variables of `Install` while its loop runs. -/
structure LoopState (σ : Type) where
  /-- The world. -/
  world : σ
  /-- The variable `didSomething`. -/
  didSomething : Bool
  /-- The named result `err`. -/
  err : Option String
  /-- The events so far. -/
  log : List (Event σ)

/-- What `Install` returns, the world it leaves and the events it caused. -/
structure InstallResult (σ : Type) where
  /-- The returned error. -/
  err : Option String
  /-- The world left. -/
  world : σ
  /-- The events. -/
  log : List (Event σ)

/-- The inner loop `for _, part := range found`: `Sum.inl` is a `return` out
of `Install`, `Sum.inr` the state after the loop. -/
def installFound {σ : Type} :
    List (Part σ) → LoopState σ → InstallResult σ ⊕ LoopState σ
  | [], st => .inr st
  | part :: rest, st =>
    if !part.IsInstalled st.world then
      let log := st.log ++ [Event.printed ("Installing " ++ part.Name ++ "\n")]
      let r := part.Install st.world
      let log := log ++ [Event.partInstall part.Name r.1]
      match r.1 with
      | some e => .inl { err := some e, world := r.2, log := log }
      | none =>
        installFound rest { world := r.2, didSomething := true, err := none, log := log }
    else installFound rest st

/-- The outer loop `for _, name := range args`. -/
def installArgs {σ : Type} (env : Env σ) :
    List String → LoopState σ → InstallResult σ ⊕ LoopState σ
  | [], st => .inr st
  | name :: rest, st =>
    if env.Stat st.world name then
      let flags : InstallFlags :=
        if inDeveloperMode env st.world then 0 ||| AllowUnauthenticated else 0
      let r := env.installClick name flags st.world
      let log := st.log ++ [Event.installClick name flags st.world r.1]
      match r.1 with
      | some e => .inl { err := some e, world := r.2, log := log }
      | none =>
        installArgs env rest { st with world := r.2, didSomething := true, log := log }
    else
      let r := env.Details name st.world
      let found := r.1.1
      match installFound found { st with world := r.2 } with
      | .inl res => .inl res
      | .inr st1 => installArgs env rest st1

/-- The error `Install` returns when nothing was installed. -/
def couldNotInstall (args : List String) : String :=
  "Could not install anything for \x27" ++ stringsJoin args "," ++ "\x27"

/-- The function `Install`, started in the world `w`. -/
def Install {σ : Type} (env : Env σ) (args : List String) (w : σ) : InstallResult σ :=
  match installArgs env args { world := w, didSomething := false, err := none, log := [] } with
  | .inl res => res
  | .inr st =>
    if !st.didSomething then
      { err := some (couldNotInstall args), world := st.world, log := st.log }
    else
      { err := st.err, world := st.world, log := st.log }

/-- The error an install call of an event returned (`none`: the call
succeeded, or the event is no install call). -/
def Event.failure {σ : Type} : Event σ → Option String
  | .installClick _ _ _ result => result
  | .partInstall _ result => result
  | .printed _ => none

/-- Whether an event is a call of `installClick` or of `part.Install`. -/
def Event.isInstall {σ : Type} : Event σ → Bool
  | .installClick _ _ _ _ => true
  | .partInstall _ _ => true
  | .printed _ => false

/-- Whether a call of `installClick` was made for a name that `os.Stat`
finds, with the flag `AllowUnauthenticated` when the world of the call is in
developer mode and with the flags `0` otherwise (other events: true). -/
def Event.flagsFollowMode {σ : Type} (env : Env σ) : Event σ → Bool
  | .installClick name flags before _ =>
    env.Stat before name &&
      (flags == if inDeveloperMode env before then AllowUnauthenticated else 0)
  | .partInstall _ _ => true
  | .printed _ => true

/-- The environment whose repository lookup returns the same parts and
leaves the same world, but never an error. -/
def Env.discardDetailsError {σ : Type} (env : Env σ) : Env σ :=
  { env with
    Details := fun name w => (((env.Details name w).1.1, none), (env.Details name w).2) }

/-- Whether every install call of a log succeeded. -/
def allOk {σ : Type} (log : List (Event σ)) : Bool :=
  log.all (fun e => e.failure.isNone)

/-- Whether a log holds an install call. -/
def anyInstall {σ : Type} (log : List (Event σ)) : Bool :=
  log.any Event.isInstall

/-- The loop invariant of `Install`: no install call has failed so far,
`didSomething` tells whether an install call was made, and `err` is `nil`. -/
def LoopInv {σ : Type} (st : LoopState σ) : Prop :=
  allOk st.log = true ∧ st.didSomething = anyInstall st.log ∧ st.err = none

/-- A result returned at a failed install call: the call is the last event,
every call before it succeeded, and its error is the returned error. -/
def Failed {σ : Type} (res : InstallResult σ) : Prop :=
  ∃ pre e x, res.log = pre ++ [e] ∧ allOk pre = true ∧ e.failure = some x
    ∧ res.err = some x

/-- The events at the end of a loop, whether it returned or ran through. -/
def outcomeLog {σ : Type} : InstallResult σ ⊕ LoopState σ → List (Event σ)
  | .inl res => res.log
  | .inr st => st.log

/-- An environment on a world without state: the files `local.snap` and
`broken.snap` exist, the cloud meta-data file reads as given, `installClick`
fails on `broken.snap` and succeeds otherwise, and the repository knows the
part `hello-world`, not installed and installing without error, and returns
an error for every other name. -/
def exampleEnv (metaData : ReadOutcome) : Env Unit :=
  { Stat := fun _ name => name == "local.snap" || name == "broken.snap"
    OpenRead := fun _ file => if file == cloudMetaDataFile then metaData else .openError
    installClick := fun name _ w =>
      if name == "broken.snap" then (some "unpack failed", w) else (none, w)
    Details := fun name w =>
      if name == "hello-world" then
        (([{ Name := "hello-world"
             IsInstalled := fun _ => false
             Install := fun w1 => (none, w1) }], none), w)
      else (([], some "snappy package not found"), w) }

/-! ### The lines of a policy fragment -/

/-- Whether a line holds nothing but blanks and tabs. -/
def isBlankLine (line : List Char) : Bool :=
  line.all (fun c => c == ' ' || c == '\t')

/-- Whether a line is a comment: its first character that is no blank or
tab is `#`. -/
def isCommentLine (line : List Char) : Bool :=
  (line.dropWhile (fun c => c == ' ' || c == '\t')).head? == some '#'

/-- The lines of a policy fragment that are neither blank nor comments, in
their order. -/
def policyLines (fragment : String) : List String :=
  ((splitLines fragment.data).filter
    (fun line => !isBlankLine line && !isCommentLine line)).map String.mk

/-! ### partition/utils.go -/

/-- The outcome of running a process to its end: what it wrote, and the
error of the run (`none` is `nil`). -/
structure ProcessOutcome where
  /-- The bytes collected from the process. -/
  out : String
  /-- The error. -/
  err : Option String

/-- The process execution of `os/exec`, over the world state `σ`. -/
structure ExecEnv (σ : Type) where
  /-- The call `exec.Command(name, arg...).CombinedOutput()`. -/
  CombinedOutput : String → List String → σ → ProcessOutcome × σ
  /-- The call `exec.Command(name, arg...).Output()`. -/
  Output : String → List String → σ → ProcessOutcome × σ

/-- What a command runner returns: its error, the world it leaves, and the
command lines it executed, in order. -/
structure RunResult (σ : Type) where
  /-- The returned error. -/
  err : Option String
  /-- The world left. -/
  world : σ
  /-- The command lines executed. -/
  executed : List (List String)

/-- What a command runner with output returns. -/
structure RunOutput (σ : Type) where
  /-- The returned output. -/
  output : String
  /-- The returned error. -/
  err : Option String
  /-- The world left. -/
  world : σ
  /-- The command lines executed. -/
  executed : List (List String)

/-- The function `runCommandImpl`. -/
def runCommandImpl {σ : Type} (env : ExecEnv σ) (args : List String) (w : σ) :
    RunResult σ :=
  match args with
  | [] => { err := some "no command specified", world := w, executed := [] }
  | name :: rest =>
    let r := env.CombinedOutput name rest w
    match r.1.err with
    | some err =>
      let cmdline := stringsJoin args " "
      { err := some ("Failed to run command \x27" ++ cmdline ++ "\x27: " ++ r.1.out ++
          " (" ++ err ++ ")")
        world := r.2
        executed := [args] }
    | none => { err := none, world := r.2, executed := [args] }

/-- The function `runCommandWithStdoutImpl`. -/
def runCommandWithStdoutImpl {σ : Type} (env : ExecEnv σ) (args : List String) (w : σ) :
    RunOutput σ :=
  match args with
  | [] => { output := "", err := some "no command specified", world := w, executed := [] }
  | name :: rest =>
    let r := env.Output name rest w
    match r.1.err with
    | some err => { output := "", err := some err, world := r.2, executed := [args] }
    | none => { output := r.1.out, err := none, world := r.2, executed := [args] }

/-- The function value `runInChroot`; the variable `runCommand` it calls is a
parameter. -/
def runInChroot {σ : Type} (runCommand : List String → σ → RunResult σ)
    (chrootDir : String) (args : List String) (w : σ) : RunResult σ :=
  let fullArgs := ["/usr/sbin/chroot", chrootDir]
  let fullArgs := fullArgs ++ args
  runCommand fullArgs w

/-! ## Part II: lemmas and theorems -/

/-! ### Lists of characters -/

theorem takeWhile_append_stop (p : Char → Bool) (l r : List Char) (a : Char)
    (hl : ∀ x ∈ l, p x = true) (ha : p a = false) :
    (l ++ a :: r).takeWhile p = l := by
  induction l with
  | nil => simp [List.takeWhile_cons, ha]
  | cons x xs ih =>
    have hx : p x = true := hl x (List.mem_cons_self x xs)
    have hxs : ∀ y ∈ xs, p y = true := fun y hy => hl y (List.mem_cons_of_mem x hy)
    simp [List.takeWhile_cons, hx, ih hxs]

theorem takeWhile_all (p : Char → Bool) (l : List Char)
    (hl : ∀ x ∈ l, p x = true) : l.takeWhile p = l := by
  induction l with
  | nil => rfl
  | cons x xs ih =>
    have hx : p x = true := hl x (List.mem_cons_self x xs)
    have hxs : ∀ y ∈ xs, p y = true := fun y hy => hl y (List.mem_cons_of_mem x hy)
    simp [List.takeWhile_cons, hx, ih hxs]

theorem dropWhile_head_stop (p : Char → Bool) (l : List Char)
    (h : ∀ a t, l = a :: t → p a = false) : l.dropWhile p = l := by
  cases l with
  | nil => rfl
  | cons a t => simp [List.dropWhile_cons, h a t rfl]

theorem isPathSeparator_eq_false {c : Char} (h : c ≠ '/') : isPathSeparator c = false := by
  simp [isPathSeparator, h]

theorem string_ne_empty_of_data {s : String} (h : s.data ≠ []) : s ≠ "" := by
  intro hs
  apply h
  rw [hs]

/-- The last characters of a path after a separator, when they hold no
separator themselves, are what `filepathBase` keeps. -/
theorem filepathBase_chars (pre leaf : List Char) (hne : leaf ≠ [])
    (hsep : ∀ c ∈ leaf, c ≠ '/') (hpre : pre = [] ∨ pre.getLast? = some '/') :
    filepathBase (String.mk (pre ++ leaf)) = String.mk leaf := by
  have hpath : String.mk (pre ++ leaf) ≠ "" :=
    string_ne_empty_of_data (by simp [hne])
  have hrev : ∀ c ∈ leaf.reverse, c ≠ '/' := fun c hc => hsep c (List.mem_reverse.1 hc)
  have hdrop : (leaf.reverse ++ pre.reverse).dropWhile isPathSeparator
      = leaf.reverse ++ pre.reverse := by
    apply dropWhile_head_stop
    intro a t hat
    cases hl : leaf.reverse with
    | nil => exact absurd (List.reverse_eq_nil_iff.1 hl) hne
    | cons b u =>
      rw [hl] at hat
      simp only [List.cons_append, List.cons.injEq] at hat
      have hb : b ∈ leaf.reverse := by rw [hl]; exact List.mem_cons_self b u
      rw [← hat.1]
      exact isPathSeparator_eq_false (hrev b hb)
  have htake : (leaf.reverse ++ pre.reverse).takeWhile (fun c => !isPathSeparator c)
      = leaf.reverse := by
    rcases hpre with hnil | hlast
    · subst hnil
      simp only [List.reverse_nil, List.append_nil]
      apply takeWhile_all
      intro c hc
      simp [isPathSeparator_eq_false (hrev c hc)]
    · have hp : pre.reverse.head? = some '/' := by simpa [List.head?_reverse] using hlast
      cases hr : pre.reverse with
      | nil => simp [hr] at hp
      | cons a t =>
        rw [hr] at hp
        simp only [List.head?_cons, Option.some.injEq] at hp
        subst hp
        apply takeWhile_append_stop
        · intro c hc
          simp [isPathSeparator_eq_false (hrev c hc)]
        · simp [isPathSeparator]
  unfold filepathBase
  rw [if_neg hpath]
  simp only [List.reverse_append, hdrop, htake, List.reverse_reverse, if_neg hne]

theorem filepathBase_leaf (dir leaf : String) (hne : leaf ≠ "")
    (hsep : '/' ∉ leaf.data) :
    filepathBase (dir ++ "/" ++ leaf) = leaf ∧ filepathBase leaf = leaf := by
  have hdata : leaf.data ≠ [] := by
    intro h
    apply hne
    exact String.ext (by rw [h])
  have hall : ∀ c ∈ leaf.data, c ≠ '/' := fun c hc hcs => hsep (hcs ▸ hc)
  constructor
  · have hpath : dir ++ "/" ++ leaf = String.mk ((dir.data ++ ['/']) ++ leaf.data) := by
      apply String.ext
      simp [String.data_append]
    rw [hpath, filepathBase_chars _ _ hdata hall (Or.inr (by simp))]
  · have h := filepathBase_chars [] leaf.data hdata hall (Or.inl rfl)
    simpa using h

/-! ### Splitting and joining -/

theorem split_single (f : List Char → List (List Char)) (p : Char → Bool)
    (hnil : f [] = [[]])
    (hcons : ∀ c cs, f (c :: cs) =
      if p c then [] :: f cs
      else match f cs with
        | [] => [[c]]
        | e :: es => (c :: e) :: es)
    (e : List Char) (he : ∀ c ∈ e, p c = false) : f e = [e] := by
  induction e with
  | nil => exact hnil
  | cons c cs ih =>
    have hc : p c = false := he c (List.mem_cons_self _ _)
    rw [hcons, ih (fun d hd => he d (List.mem_cons_of_mem _ hd))]
    simp [hc]

theorem split_append (f : List Char → List (List Char)) (p : Char → Bool)
    (hcons : ∀ c cs, f (c :: cs) =
      if p c then [] :: f cs
      else match f cs with
        | [] => [[c]]
        | e :: es => (c :: e) :: es)
    (e : List Char) (sep : Char) (rest : List Char) (he : ∀ c ∈ e, p c = false)
    (hsep : p sep = true) : f (e ++ sep :: rest) = e :: f rest := by
  induction e with
  | nil => simp [hcons, hsep]
  | cons c cs ih =>
    have hc : p c = false := he c (List.mem_cons_self _ _)
    rw [List.cons_append, hcons, ih (fun d hd => he d (List.mem_cons_of_mem _ hd))]
    simp [hc]

theorem split_joinWith (f : List Char → List (List Char)) (p : Char → Bool)
    (hnil : f [] = [[]])
    (hcons : ∀ c cs, f (c :: cs) =
      if p c then [] :: f cs
      else match f cs with
        | [] => [[c]]
        | e :: es => (c :: e) :: es)
    (sep : Char) (hsep : p sep = true) (es : List (List Char)) (hne : es ≠ [])
    (hes : ∀ e ∈ es, ∀ c ∈ e, p c = false) : f (joinWith sep es) = es := by
  induction es with
  | nil => exact absurd rfl hne
  | cons e rest ih =>
    cases rest with
    | nil => exact split_single f p hnil hcons e (hes e (List.mem_cons_self _ _))
    | cons next more =>
      rw [joinWith, split_append f p hcons e sep _ (hes e (List.mem_cons_self _ _)) hsep,
        ih (by simp) (fun d hd => hes d (List.mem_cons_of_mem _ hd))]

theorem splitLines_joinWith (es : List (List Char)) (hne : es ≠ [])
    (hes : ∀ e ∈ es, ∀ c ∈ e, c ≠ '\n') : splitLines (joinWith '\n' es) = es :=
  split_joinWith splitLines (fun c => c == '\n') rfl (fun _ _ => rfl) '\n' rfl es hne
    (fun e he c hc => by simpa using hes e he c hc)

theorem splitSlash_joinWith (es : List (List Char)) (hne : es ≠ [])
    (hes : ∀ e ∈ es, ∀ c ∈ e, c ≠ '/') : splitSlash (joinWith '/' es) = es :=
  split_joinWith splitSlash isPathSeparator rfl (fun _ _ => rfl) '/' rfl es hne
    (fun e he c hc => isPathSeparator_eq_false (hes e he c hc))

theorem intercalate_go_append (p q s : String) (rest : List String) :
    String.intercalate.go (p ++ q) s rest = p ++ String.intercalate.go q s rest := by
  induction rest generalizing q with
  | nil => rfl
  | cons a as ih =>
    simp only [String.intercalate.go]
    rw [String.append_assoc, String.append_assoc, ih, String.append_assoc]

theorem stringsJoin_cons_cons (a b : String) (rest : List String) (sep : String) :
    stringsJoin (a :: b :: rest) sep = a ++ sep ++ stringsJoin (b :: rest) sep := by
  simp only [stringsJoin, String.intercalate, String.intercalate.go]
  rw [String.append_assoc, String.append_assoc, intercalate_go_append]
  rw [show sep ++ b = sep ++ (b ++ "") by simp, intercalate_go_append]
  simp [String.intercalate.go]

theorem joinWith_append (sep : Char) (xs ys : List (List Char)) (hx : xs ≠ [])
    (hy : ys ≠ []) :
    joinWith sep (xs ++ ys) = joinWith sep xs ++ sep :: joinWith sep ys := by
  induction xs with
  | nil => exact absurd rfl hx
  | cons e rest ih =>
    cases rest with
    | nil =>
      cases ys with
      | nil => exact absurd rfl hy
      | cons y more => rfl
    | cons next more =>
      have h : joinWith sep (next :: (more ++ ys))
          = joinWith sep (next :: more) ++ sep :: joinWith sep ys := ih (by simp)
      show e ++ sep :: joinWith sep (next :: (more ++ ys))
        = (e ++ sep :: joinWith sep (next :: more)) ++ sep :: joinWith sep ys
      rw [h]
      simp

theorem intercalate_mk (sep : Char) (es : List (List Char)) :
    String.intercalate (String.mk [sep]) (es.map String.mk) = String.mk (joinWith sep es) := by
  induction es with
  | nil => rfl
  | cons e rest ih =>
    cases rest with
    | nil => rfl
    | cons next more =>
      have h := stringsJoin_cons_cons (String.mk e) (String.mk next) (more.map String.mk)
        (String.mk [sep])
      simp only [stringsJoin] at h
      simp only [List.map_cons] at ih ⊢
      rw [h, ih]
      apply String.ext
      simp [String.data_append, joinWith]

theorem isPathName_spec {e : List Char} (h : isPathName e = true) :
    e ≠ [] ∧ e ≠ ['.'] ∧ e ≠ ['.', '.'] ∧ ∀ c ∈ e, c ≠ '/' := by
  simp only [isPathName, Bool.and_eq_true, bne_iff_ne, ne_eq, List.all_eq_true] at h
  exact ⟨h.1.1.1, h.1.1.2, h.1.2, h.2⟩

theorem foldl_cleanStep_names (es stack : List (List Char))
    (h : ∀ e ∈ es, e = [] ∨ isPathName e = true) :
    es.foldl (cleanStep true) stack = (es.filter (fun e => e != [])).reverse ++ stack := by
  induction es generalizing stack with
  | nil => rfl
  | cons e rest ih =>
    have hrest := fun st => ih st (fun x hx => h x (List.mem_cons_of_mem _ hx))
    rw [List.foldl_cons]
    rcases h e (List.mem_cons_self _ _) with he | he
    · subst he
      simp [cleanStep, hrest]
    · obtain ⟨h1, h2, h3, _⟩ := isPathName_spec he
      have hstep : cleanStep true stack e = e :: stack := by
        simp [cleanStep, h1, h2, h3]
      rw [hstep, hrest]
      simp [List.filter_cons, h1]

theorem filepathClean_rooted (es : List (List Char)) (hne : es ≠ [])
    (h : ∀ e ∈ es, e = [] ∨ isPathName e = true) :
    filepathClean (String.mk (joinWith '/' ([] :: es)))
      = String.mk ('/' :: joinWith '/' (es.filter (fun e => e != []))) := by
  obtain ⟨e0, rest, hes⟩ := List.exists_cons_of_ne_nil hne
  have hdata : joinWith '/' ([] :: es) = '/' :: joinWith '/' es := by
    rw [hes]
    rfl
  have hsplit : splitSlash (joinWith '/' ([] :: es)) = [] :: es := by
    apply splitSlash_joinWith _ (by simp)
    intro e he c hc
    rcases List.mem_cons.1 he with h0 | h0
    · subst h0
      simp at hc
    · rcases h e h0 with h1 | h1
      · subst h1
        simp at hc
      · exact (isPathName_spec h1).2.2.2 c hc
  have hpath : String.mk (joinWith '/' ([] :: es)) ≠ "" :=
    string_ne_empty_of_data (by rw [hdata]; simp)
  have hfold := foldl_cleanStep_names ([] :: es) []
    (fun e he => by
      rcases List.mem_cons.1 he with h0 | h0
      · exact Or.inl h0
      · exact h e h0)
  unfold filepathClean
  rw [if_neg hpath]
  have hrooted : ((joinWith '/' ([] :: es)).head? == some '/') = true := by
    rw [hdata]
    rfl
  have hfilter : ([] :: es).filter (fun e => e != []) = es.filter (fun e => e != []) := by
    simp [List.filter_cons]
  simp only [hsplit, hrooted, if_true]
  rw [hfold, hfilter]
  simp only [List.append_nil, List.reverse_reverse]
  have hi := intercalate_mk '/' (es.filter (fun e => e != []))
  have hsep : String.mk ['/'] = "/" := rfl
  rw [hsep] at hi
  rw [hi]
  have hout : "/" ++ String.mk (joinWith '/' (es.filter (fun e => e != [])))
      = String.mk ('/' :: joinWith '/' (es.filter (fun e => e != []))) := by
    apply String.ext
    simp [String.data_append]
  rw [hout, if_neg (string_ne_empty_of_data (by simp))]

theorem filter_names (es : List (List Char)) (h : ∀ e ∈ es, isPathName e = true) :
    es.filter (fun e => e != []) = es := by
  rw [List.filter_eq_self]
  intro e he
  simpa using (isPathName_spec (h e he)).1

/-- The join of a clean rooted directory, written with or without a slash at
its end, and a relative path of names is the directory, a slash and the
relative path. -/
theorem filepathJoin_names (ds bs : List (List Char)) (hds : ds ≠ []) (hbs : bs ≠ [])
    (hd : ∀ e ∈ ds, isPathName e = true) (hb : ∀ e ∈ bs, isPathName e = true) :
    filepathJoin (String.mk ('/' :: joinWith '/' ds)) (String.mk (joinWith '/' bs))
        = String.mk ('/' :: joinWith '/' ds) ++ "/" ++ String.mk (joinWith '/' bs)
      ∧ filepathJoin (String.mk ('/' :: joinWith '/' ds) ++ "/") (String.mk (joinWith '/' bs))
        = String.mk ('/' :: joinWith '/' ds) ++ "/" ++ String.mk (joinWith '/' bs) := by
  have hall : ∀ e ∈ ds ++ bs, isPathName e = true := by
    intro e he
    rcases List.mem_append.1 he with h | h
    · exact hd e h
    · exact hb e h
  have hresult : String.mk ('/' :: joinWith '/' (ds ++ bs))
      = String.mk ('/' :: joinWith '/' ds) ++ "/" ++ String.mk (joinWith '/' bs) := by
    apply String.ext
    simp [String.data_append, joinWith_append '/' ds bs hds hbs]
  constructor
  · have ha : String.mk ('/' :: joinWith '/' ds) ≠ "" := string_ne_empty_of_data (by simp)
    have hpath : String.mk ('/' :: joinWith '/' ds) ++ "/" ++ String.mk (joinWith '/' bs)
        = String.mk (joinWith '/' ([] :: (ds ++ bs))) := by
      rw [← hresult]
      obtain ⟨e0, rest, hes⟩ := List.exists_cons_of_ne_nil (List.append_ne_nil_of_left_ne_nil hds bs)
      rw [hes]
      rfl
    unfold filepathJoin
    rw [if_pos ha, hpath, filepathClean_rooted _ (List.append_ne_nil_of_left_ne_nil hds bs)
      (fun e he => Or.inr (hall e he)), filter_names _ hall, ← hpath, hresult]
  · have ha : String.mk ('/' :: joinWith '/' ds) ++ "/" ≠ "" :=
      string_ne_empty_of_data (by simp [String.data_append])
    have hpath : String.mk ('/' :: joinWith '/' ds) ++ "/" ++ "/" ++ String.mk (joinWith '/' bs)
        = String.mk (joinWith '/' ([] :: (ds ++ [] :: bs))) := by
      apply String.ext
      obtain ⟨b0, brest, hbe⟩ := List.exists_cons_of_ne_nil hbs
      obtain ⟨d0, drest, hde⟩ := List.exists_cons_of_ne_nil hds
      have h1 : joinWith '/' ([] :: (ds ++ [] :: bs)) = '/' :: joinWith '/' (ds ++ [] :: bs) := by
        rw [hde]
        rfl
      have h2 : joinWith '/' ([] :: bs) = '/' :: joinWith '/' bs := by
        rw [hbe]
        rfl
      rw [h1, joinWith_append '/' ds ([] :: bs) hds (by simp), h2]
      simp [String.data_append]
    have hfilter : (ds ++ [] :: bs).filter (fun e => e != []) = ds ++ bs := by
      rw [List.filter_append, List.filter_cons, filter_names ds hd, filter_names bs hb]
      simp
    unfold filepathJoin
    rw [if_pos ha, hpath, filepathClean_rooted _ (List.append_ne_nil_of_left_ne_nil hds _)
      (fun e he => by
        rcases List.mem_append.1 he with h | h
        · exact Or.inr (hd e h)
        · rcases List.mem_cons.1 h with h0 | h0
          · exact Or.inl h0
          · exact Or.inr (hb e h0)), hfilter, hresult]

/-! ### Template variables -/

/-- C1: for every application context with app name `n`, snap name `s` and
revision `r`, `templateVariables` returns exactly the four definitions of
`APP_NAME`, `SNAP_NAME`, `SNAP_REVISION` and `INSTALL_DIR` in that order, the
values inserted as they are, nothing before them and no newline after the
last one; the text is a function of `n`, `s` and the rendering of `r`. -/
theorem templateVariables_exact {Rev : Type} [ToString Rev] (appInfo : AppInfo Rev) :
    templateVariables appInfo =
        "@\x7bAPP_NAME\x7d=\"" ++ appInfo.Name ++ "\"\n" ++
        "@\x7bSNAP_NAME\x7d=\"" ++ appInfo.Snap.Name ++ "\"\n" ++
        "@\x7bSNAP_REVISION\x7d=\"" ++ toString appInfo.Snap.Revision ++ "\"\n" ++
        "@\x7bINSTALL_DIR\x7d=\"/snap\""
      ∧ (templateVariables appInfo).data.getLast? = some '"' := by
  have h : templateVariables appInfo =
        "@\x7bAPP_NAME\x7d=\"" ++ appInfo.Name ++ "\"\n" ++
        "@\x7bSNAP_NAME\x7d=\"" ++ appInfo.Snap.Name ++ "\"\n" ++
        "@\x7bSNAP_REVISION\x7d=\"" ++ toString appInfo.Snap.Revision ++ "\"\n" ++
        "@\x7bINSTALL_DIR\x7d=\"/snap\"" := by
    simp only [templateVariables, Fprintf1, String.append_assoc]
    rfl
  refine ⟨h, ?_⟩
  rw [h, String.data_append]
  have hl : ("@\x7bINSTALL_DIR\x7d=\"/snap\"" : String).data
      = "@\x7bINSTALL_DIR\x7d=\"/snap".data ++ ['"'] := by decide
  rw [hl, ← List.append_assoc]
  exact List.getLast?_concat _

/-! ### The network interface -/

theorem connectAll_OS (l : List commonInterface) :
    connectAll PackageType.OS l = .ok l := by
  induction l with
  | nil => rfl
  | cons iface rest ih =>
    have h : connectPlug PackageType.OS iface = .ok iface := by
      simp [connectPlug]
    simp only [connectAll, h, ih]

theorem connectAll_reserved (pkgType : PackageType) (hp : pkgType ≠ PackageType.OS)
    (l : List commonInterface) (iface : commonInterface) (hmem : iface ∈ l)
    (hres : iface.reservedForOS = true) :
    connectAll pkgType l = .error .InterfaceNotAllowed := by
  induction l with
  | nil => exact absurd hmem (List.not_mem_nil _)
  | cons head rest ih =>
    simp only [connectAll]
    cases hc : connectPlug pkgType head with
    | error e =>
      cases e
      rfl
    | ok connected =>
      simp only
      rcases List.mem_cons.1 hmem with h | h
      · subst h
        simp [connectPlug, hres, hp] at hc
      · rw [ih h]

/-- C6, as the claim states it, fails: the network interface is reserved for
the OS, so for an application of a package of the type `application` that
declares no explicit plug resolution the connection is rejected with
`InterfaceNotAllowed` and the application receives no fragment. -/
theorem NewNetworkInterface_rejects_application :
    NewNetworkInterface.reservedForOS = true
      ∧ connectPlug PackageType.application NewNetworkInterface
          = .error .InterfaceNotAllowed
      ∧ autoConnections [NewNetworkInterface] PackageType.application
          = .error .InterfaceNotAllowed :=
  ⟨rfl, rfl, rfl⟩

/-- C6, amended: `NewNetworkInterface` returns the interface named
`network`, marked auto-connect and reserved for the OS, whose connected-plug
AppArmor and seccomp fragments are the two constants of `network.go`; in
every registry that holds it, an application of a package of the type OS
that declares no explicit plug resolution is connected to every auto-connect
interface of the registry, the network interface among them, and the
fragments of those connections include its two fragments; for a package of
another type the connection is rejected with `InterfaceNotAllowed`. -/
theorem NewNetworkInterface_autoConnect (registry : List commonInterface)
    (h : NewNetworkInterface ∈ registry) :
    NewNetworkInterface.name = "network"
      ∧ NewNetworkInterface.autoConnect = true
      ∧ NewNetworkInterface.reservedForOS = true
      ∧ NewNetworkInterface.connectedPlugAppArmor = networkConnectedPlugAppArmor
      ∧ NewNetworkInterface.connectedPlugSecComp = networkConnectedPlugSecComp
      ∧ (∃ connections, autoConnections registry PackageType.OS = .ok connections
          ∧ connections = registry.filter (fun iface => iface.autoConnect)
          ∧ NewNetworkInterface ∈ connections
          ∧ networkConnectedPlugAppArmor ∈ connectedFragments .AppArmor connections
          ∧ networkConnectedPlugSecComp ∈ connectedFragments .SecComp connections)
      ∧ (∀ pkgType, pkgType ≠ PackageType.OS →
          autoConnections registry pkgType = .error .InterfaceNotAllowed) := by
  have hmem : NewNetworkInterface ∈ registry.filter (fun iface => iface.autoConnect) :=
    List.mem_filter.2 ⟨h, rfl⟩
  refine ⟨rfl, rfl, rfl, rfl, rfl,
    ⟨_, connectAll_OS _, rfl, hmem,
      List.mem_map.2 ⟨NewNetworkInterface, hmem, rfl⟩,
      List.mem_map.2 ⟨NewNetworkInterface, hmem, rfl⟩⟩, ?_⟩
  intro pkgType hp
  exact connectAll_reserved pkgType hp _ NewNetworkInterface hmem rfl

/-- The registry that holds the network interface alone makes the claim of
`NewNetworkInterface_autoConnect` concrete. -/
theorem NewNetworkInterface_autoConnect_witness :
    NewNetworkInterface ∈ [NewNetworkInterface]
      ∧ autoConnections [NewNetworkInterface] PackageType.OS = .ok [NewNetworkInterface]
      ∧ autoConnections [NewNetworkInterface] PackageType.kernel
          = .error .InterfaceNotAllowed := by
  obtain ⟨_, _, _, _, _, ⟨connections, hok, heq, _⟩, hno⟩ :=
    NewNetworkInterface_autoConnect [NewNetworkInterface] (List.mem_singleton.2 rfl)
  exact ⟨List.mem_singleton.2 rfl, hok.trans (by rw [heq]; rfl),
    hno PackageType.kernel (by decide)⟩

/-! ### Profile names -/

/-- C2: for every manifest and binary, `getBinaryAaProfile` is the
security-policy name when that is non-empty, otherwise the security-template
name when that is non-empty, otherwise the package name, the last path
element of the binary name and the version joined by underscores; the last
path element of `dir/leaf` and of `leaf` is `leaf`, and the three assertions
of `TestSnappyGetBinaryAaProfile` hold. -/
theorem getBinaryAaProfile_precedence (m : packageYaml) (b : Binary) :
    (b.SecurityPolicy ≠ "" → getBinaryAaProfile m b = b.SecurityPolicy)
      ∧ (b.SecurityPolicy = "" → b.SecurityTemplate ≠ "" →
          getBinaryAaProfile m b = b.SecurityTemplate)
      ∧ (b.SecurityPolicy = "" → b.SecurityTemplate = "" →
          getBinaryAaProfile m b =
            m.Name ++ "_" ++ filepathBase b.Name ++ "_" ++ m.Version)
      ∧ (∀ dir leaf : String, leaf ≠ "" → '/' ∉ leaf.data →
          filepathBase (dir ++ "/" ++ leaf) = leaf ∧ filepathBase leaf = leaf)
      ∧ getBinaryAaProfile { Name := "foo", Version := "1.0" } { Name := "bin/app" }
          = "foo_app_1.0"
      ∧ getBinaryAaProfile { Name := "foo", Version := "1.0" }
          { Name := "bin/app", SecurityTemplate := "some-security-json" }
          = "some-security-json"
      ∧ getBinaryAaProfile { Name := "foo", Version := "1.0" }
          { Name := "bin/app", SecurityPolicy := "some-profile" }
          = "some-profile" := by
  refine ⟨?_, ?_, ?_, filepathBase_leaf, by decide, by decide, by decide⟩
  · intro h
    simp [getBinaryAaProfile, h]
  · intro h1 h2
    simp [getBinaryAaProfile, h1, h2]
  · intro h1 h2
    simp [getBinaryAaProfile, h1, h2]

/-- A binary `bin/app` of `foo` 1.0 with no override makes the third case of
`getBinaryAaProfile_precedence` concrete. -/
theorem getBinaryAaProfile_precedence_witness :
    getBinaryAaProfile { Name := "foo", Version := "1.0" } { Name := "bin/app" }
      = "foo" ++ "_" ++ filepathBase "bin/app" ++ "_" ++ "1.0" :=
  (getBinaryAaProfile_precedence { Name := "foo", Version := "1.0" }
    { Name := "bin/app" }).2.2.1 rfl rfl

/-! ### The generated wrapper -/

set_option maxRecDepth 8000 in
/-- C3: for every binary, package path, profile name and manifest,
`generateSnapBinaryWrapper` is the text of `expectedWrapper` with the package
path, the package name and version, the profile name and the joined binary
path in the places of the values of the test: it starts with the `#!/bin/sh`
line, the marker line and the `##TARGET=` line of the joined binary path,
exports the deprecated `SNAPP_*` variables before the current `SNAP_*`
variables, and ends with the change into the package path and the
`aa-exec -p` line of the profile name and the joined binary path; of the
binary only its name is used.  The join of a clean rooted directory, with or
without a slash at its end, and a relative path of names is the directory, a
slash and the relative path; on the inputs of
`TestSnappyGenerateSnapBinaryWrapper` the text is `expectedWrapper`. -/
theorem generateSnapBinaryWrapper_template (b : Binary) (p a : String)
    (m : packageYaml) :
    generateSnapBinaryWrapper b p a m =
        "#!/bin/sh\n" ++
        "# !!!never remove this line!!!\n" ++
        "##TARGET=" ++ filepathJoin p b.Name ++ "\n" ++
        "\n" ++
        "set -e\n" ++
        "\n" ++
        "TMPDIR=\"/tmp/snapps/" ++ m.Name ++ "/" ++ m.Version ++ "/tmp\"\n" ++
        "if [ ! -d \"$TMPDIR\" ]; then\n" ++
        "    mkdir -p -m1777 \"$TMPDIR\"\n" ++
        "fi\n" ++
        "export TMPDIR\n" ++
        "export TEMPDIR=\"$TMPDIR\"\n" ++
        "\n" ++
        "# app paths (deprecated)\n" ++
        "export SNAPP_APP_PATH=\"" ++ p ++ "\"\n" ++
        "export SNAPP_APP_DATA_PATH=\"/var/lib/" ++ p ++ "\"\n" ++
        "export SNAPP_APP_USER_DATA_PATH=\"$HOME/" ++ p ++ "\"\n" ++
        "export SNAPP_APP_TMPDIR=\"$TMPDIR\"\n" ++
        "export SNAPP_OLD_PWD=\"$(pwd)\"\n" ++
        "\n" ++
        "# app paths\n" ++
        "export SNAP_APP_PATH=\"" ++ p ++ "\"\n" ++
        "export SNAP_APP_DATA_PATH=\"/var/lib/" ++ p ++ "\"\n" ++
        "export SNAP_APP_USER_DATA_PATH=\"$HOME/" ++ p ++ "\"\n" ++
        "export SNAP_APP_TMPDIR=\"$TMPDIR\"\n" ++
        "\n" ++
        "# FIXME: this will need to become snappy arch or something\n" ++
        "export SNAPPY_APP_ARCH=\"$(dpkg --print-architecture)\"\n" ++
        "\n" ++
        "if [ ! -d \"$SNAP_APP_USER_DATA_PATH\" ]; then\n" ++
        "   mkdir -p \"$SNAP_APP_USER_DATA_PATH\"\n" ++
        "fi\n" ++
        "export HOME=\"$SNAP_APP_USER_DATA_PATH\"\n" ++
        "\n" ++
        "# export old pwd\n" ++
        "export SNAP_OLD_PWD=\"$(pwd)\"\n" ++
        "cd " ++ p ++ "\n" ++
        "aa-exec -p " ++ a ++ " -- " ++ filepathJoin p b.Name ++ " \"$@\"\n"
      ∧ (∃ rest, generateSnapBinaryWrapper b p a m =
        "#!/bin/sh\n" ++
        "# !!!never remove this line!!!\n" ++
        "##TARGET=" ++ filepathJoin p b.Name ++ "\n" ++ rest)
      ∧ (∃ pre mid post, generateSnapBinaryWrapper b p a m =
          pre ++ wrapperDeprecatedExports p ++ mid ++ wrapperCurrentExports p ++ post)
      ∧ (∃ pre, generateSnapBinaryWrapper b p a m =
          pre ++ ("cd " ++ p ++ "\n" ++
            "aa-exec -p " ++ a ++ " -- " ++ filepathJoin p b.Name ++ " \"$@\"\n"))
      ∧ generateSnapBinaryWrapper b p a m =
          generateSnapBinaryWrapper { Name := b.Name } p a
            { Name := m.Name, Version := m.Version }
      ∧ (∀ ds bs : List (List Char), ds ≠ [] → bs ≠ [] →
          (∀ e ∈ ds, isPathName e = true) → (∀ e ∈ bs, isPathName e = true) →
          filepathJoin (String.mk ('/' :: joinWith '/' ds)) (String.mk (joinWith '/' bs))
              = String.mk ('/' :: joinWith '/' ds) ++ "/" ++ String.mk (joinWith '/' bs)
            ∧ filepathJoin (String.mk ('/' :: joinWith '/' ds) ++ "/")
                (String.mk (joinWith '/' bs))
              = String.mk ('/' :: joinWith '/' ds) ++ "/" ++ String.mk (joinWith '/' bs))
      ∧ filepathJoin "/apps/foo/1.0" "bin/foo" = "/apps/foo/1.0/bin/foo"
      ∧ generateSnapBinaryWrapper { Name := "bin/pastebinit" }
          "/apps/pastebinit.mvo/1.4.0.0.1/" "pastebinit.mvo_pastebinit_1.4.0.0.1"
          { Name := "pastebinit.mvo", Version := "1.4.0.0.1" } = expectedWrapper := by
  refine ⟨?_, ⟨wrapperTmpdir m.Name m.Version ++ (wrapperDeprecatedExports p ++
      ("\n" ++ (wrapperCurrentExports p ++ (wrapperHome ++
        wrapperExec p a (filepathJoin p b.Name))))), ?_⟩,
    ⟨wrapperHeader (filepathJoin p b.Name) ++ wrapperTmpdir m.Name m.Version, "\n",
      wrapperHome ++ wrapperExec p a (filepathJoin p b.Name), ?_⟩,
    ⟨wrapperHeader (filepathJoin p b.Name) ++ (wrapperTmpdir m.Name m.Version ++
      (wrapperDeprecatedExports p ++ ("\n" ++ (wrapperCurrentExports p ++ wrapperHome)))),
      ?_⟩, rfl, filepathJoin_names, by decide, ?_⟩
  · simp only [generateSnapBinaryWrapper, wrapperHeader, wrapperTmpdir,
      wrapperDeprecatedExports, wrapperCurrentExports, wrapperHome, wrapperExec,
      String.append_assoc]
  · simp only [generateSnapBinaryWrapper, wrapperHeader, String.append_assoc]
  · simp only [generateSnapBinaryWrapper, String.append_assoc]
  · simp only [generateSnapBinaryWrapper, wrapperExec, String.append_assoc]
  · have h : filepathJoin "/apps/pastebinit.mvo/1.4.0.0.1/" "bin/pastebinit"
        = "/apps/pastebinit.mvo/1.4.0.0.1/bin/pastebinit" := by decide
    simp only [generateSnapBinaryWrapper, h]
    rfl

/-- The directory `/apps/foo/1.0` and the binary `bin/foo` make the join of
`generateSnapBinaryWrapper_template` concrete. -/
theorem generateSnapBinaryWrapper_template_witness :
    filepathJoin (String.mk ('/' :: joinWith '/' ["apps".data, "foo".data, "1.0".data]))
        (String.mk (joinWith '/' ["bin".data, "foo".data]))
      = "/apps/foo/1.0/bin/foo" :=
  ((generateSnapBinaryWrapper_template { Name := "bin/foo" } "/apps/foo/1.0" "foo_foo_1.0"
    { Name := "foo", Version := "1.0" }).2.2.2.2.2.1
      ["apps".data, "foo".data, "1.0".data] ["bin".data, "foo".data]
      (by decide) (by decide) (by decide) (by decide)).1.trans (by decide)

/-! ### Hook definition files -/

theorem lookup_none_of_no_key (doc : List (String × String)) (key : String)
    (h : ∀ kv ∈ doc, kv.1 ≠ key) : doc.lookup key = none := by
  induction doc with
  | nil => rfl
  | cons kv rest ih =>
    obtain ⟨k, v⟩ := kv
    have hk : k ≠ key := h (k, v) (List.mem_cons_self _ _)
    have hne : (key == k) = false := by
      simp only [beq_eq_false_iff_ne, ne_eq]
      exact fun e => hk e.symm
    rw [List.lookup_cons, hne]
    exact ih (fun kv hkv => h kv (List.mem_cons_of_mem _ hkv))

theorem baseNameWithoutExt_hook (dir base : String) (hbase : '/' ∉ base.data) :
    baseNameWithoutExt (dir ++ "/" ++ base ++ ".hook") = base := by
  have hpath : dir ++ "/" ++ base ++ ".hook"
      = String.mk ((dir.data ++ ['/']) ++ (base.data ++ ['.', 'h', 'o', 'o', 'k'])) := by
    apply String.ext
    simp [String.data_append]
  have hall : ∀ c ∈ base.data ++ ['.', 'h', 'o', 'o', 'k'], c ≠ '/' := by
    intro c hc hcs
    subst hcs
    rcases List.mem_append.1 hc with h | h
    · exact hbase h
    · revert h
      decide
  have hb := filepathBase_chars (dir.data ++ ['/']) (base.data ++ ['.', 'h', 'o', 'o', 'k'])
    (by simp) hall (Or.inr (by simp))
  unfold baseNameWithoutExt
  rw [hpath, hb]
  simp [List.dropWhile_cons]

theorem parseHookLine_entry (k v : String) (hk : ':' ∉ k.data)
    (hv : ∀ t, v.data ≠ ' ' :: t) :
    parseHookLine (k ++ ": " ++ v).data = some (k, v) := by
  have hall : ∀ c ∈ k.data, (c != ':') = true := by
    intro c hc
    simp only [bne_iff_ne, ne_eq]
    exact fun e => hk (e ▸ hc)
  have hline : (k ++ ": " ++ v).data = k.data ++ ':' :: (' ' :: v.data) := by
    simp [String.data_append]
  have htake : (k.data ++ ':' :: (' ' :: v.data)).takeWhile (fun c => c != ':') = k.data :=
    takeWhile_append_stop _ _ _ _ hall (by simp)
  have hdrop : (k.data ++ ':' :: (' ' :: v.data)).dropWhile (fun c => c != ':')
      = ':' :: (' ' :: v.data) := by
    rw [List.dropWhile_append_of_pos hall]
    simp [List.dropWhile_cons]
  have hval : (' ' :: v.data).dropWhile (fun c => c == ' ') = v.data := by
    rw [List.dropWhile_cons]
    simp only [beq_self_eq_true, if_true]
    apply dropWhile_head_stop
    intro a t hat
    simp only [beq_eq_false_iff_ne, ne_eq]
    intro ha
    exact hv t (by rw [hat, ha])
  unfold parseHookLine
  rw [hline, hdrop]
  simp only [htake, hval]

theorem chars_no_newline (l : HookLine) (h : l.wellFormed = true) :
    ∀ c ∈ l.chars, c ≠ '\n' := by
  cases l with
  | entry k v =>
    simp only [HookLine.wellFormed, Bool.and_eq_true, List.all_eq_true, bne_iff_ne, ne_eq] at h
    intro c hc
    simp only [HookLine.chars, List.mem_append, List.mem_cons] at hc
    rcases hc with hc | hc | hc | hc
    · exact (h.1.1 c hc).2
    · rw [hc]; decide
    · rw [hc]; decide
    · exact h.1.2 c hc
  | other t =>
    simp only [HookLine.wellFormed, List.all_eq_true, Bool.and_eq_true, bne_iff_ne, ne_eq] at h
    intro c hc
    exact (h c hc).2

theorem parseHookLine_chars (l : HookLine) (h : l.wellFormed = true) :
    parseHookLine l.chars =
      match l with
      | .entry k v => some (k, v)
      | .other _ => none := by
  cases l with
  | entry k v =>
    simp only [HookLine.wellFormed, Bool.and_eq_true, List.all_eq_true, bne_iff_ne, ne_eq] at h
    have hk : ':' ∉ k.data := fun hin => (h.1.1 ':' hin).1 rfl
    have hv : ∀ t, v.data ≠ ' ' :: t := by
      intro t ht
      apply h.2
      rw [ht]
      rfl
    have := parseHookLine_entry k v hk hv
    simpa [HookLine.chars, String.data_append] using this
  | other t =>
    simp only [HookLine.wellFormed, List.all_eq_true, Bool.and_eq_true, bne_iff_ne, ne_eq] at h
    have hdrop : t.data.dropWhile (fun c => c != ':') = [] := by
      rw [List.dropWhile_eq_nil_iff]
      intro c hc
      simpa using (h c hc).1
    simp only [HookLine.chars, parseHookLine, hdrop]

theorem filterMap_parseHookLine (lines : List HookLine)
    (h : ∀ l ∈ lines, l.wellFormed = true) :
    (lines.map HookLine.chars).filterMap parseHookLine = hookEntries lines := by
  induction lines with
  | nil => rfl
  | cons l rest ih =>
    have hl := parseHookLine_chars l (h l (List.mem_cons_self _ _))
    have hrest := ih (fun x hx => h x (List.mem_cons_of_mem _ hx))
    cases l with
    | entry k v => simp only [List.map_cons, List.filterMap_cons, hl, hrest, hookEntries]
    | other t => simp only [List.map_cons, List.filterMap_cons, hl, hrest, hookEntries]

/-- Reading back a written hook definition file gives its entries. -/
theorem parseHookDocument_writeHookFile (lines : List HookLine)
    (h : ∀ l ∈ lines, l.wellFormed = true) :
    parseHookDocument (writeHookFile lines) = hookEntries lines := by
  unfold parseHookDocument writeHookFile
  cases lines with
  | nil => rfl
  | cons l rest =>
    rw [splitLines_joinWith _ (by simp)]
    · exact filterMap_parseHookLine _ h
    · intro e he
      obtain ⟨x, hx, hxe⟩ := List.mem_map.1 he
      rw [← hxe]
      exact chars_no_newline x (h x hx)

theorem hookEntries_lookup_none (lines : List HookLine) (key : String)
    (h : ∀ v, HookLine.entry key v ∉ lines) : (hookEntries lines).lookup key = none := by
  induction lines with
  | nil => rfl
  | cons l rest ih =>
    have hrest := ih (fun v hv => h v (List.mem_cons_of_mem _ hv))
    cases l with
    | entry k v =>
      have hk : (key == k) = false := by
        simp only [beq_eq_false_iff_ne, ne_eq]
        intro e
        exact h v (e ▸ List.mem_cons_self _ _)
      simp only [hookEntries, List.lookup_cons, hk, hrest]
    | other t => simpa only [hookEntries] using hrest

theorem hookEntries_lookup_first (pre post : List HookLine) (key value : String)
    (h : ∀ v, HookLine.entry key v ∉ pre) :
    (hookEntries (pre ++ HookLine.entry key value :: post)).lookup key = some value := by
  induction pre with
  | nil => simp [hookEntries, List.lookup_cons]
  | cons l rest ih =>
    have hrest := ih (fun v hv => h v (List.mem_cons_of_mem _ hv))
    cases l with
    | entry k v =>
      have hk : (key == k) = false := by
        simp only [beq_eq_false_iff_ne, ne_eq]
        intro e
        exact h v (e ▸ List.mem_cons_self _ _)
      simp only [List.cons_append, hookEntries, List.lookup_cons, hk]
      exact hrest
    | other t => simpa only [List.cons_append, hookEntries] using hrest

/-- C9: for every readable hook definition file `dir/base.hook` written as
lines, each an entry `key: value` or a text without a colon,
`readClickHookFile` succeeds; when no line is an entry of the key
`Hook-Name` the hook is named `base`; the first entry of the key
`Hook-Name`, `User`, `Exec` or `Pattern` gives the name, user, executable or
pattern of the hook, the value as it is written, and a key without an entry
gives the empty text.  A readable file of any content is read without
error and names the hook `base` when its document has no key `Hook-Name`,
and the assertions of `TestReadClickHookFile` hold. -/
theorem readClickHookFile_name (ReadFile : String → Option String)
    (dir base : String) (lines : List HookLine) (hbase : '/' ∉ base.data)
    (hlines : ∀ l ∈ lines, l.wellFormed = true)
    (hread : ReadFile (dir ++ "/" ++ base ++ ".hook") = some (writeHookFile lines)) :
    ∃ hook, readClickHookFile ReadFile (dir ++ "/" ++ base ++ ".hook") = .ok hook
      ∧ ((∀ v, HookLine.entry "Hook-Name" v ∉ lines) → hook.name = base)
      ∧ (∀ pre v post, lines = pre ++ HookLine.entry "Hook-Name" v :: post →
          (∀ u, HookLine.entry "Hook-Name" u ∉ pre) → hook.name = v)
      ∧ (∀ pre v post, lines = pre ++ HookLine.entry "User" v :: post →
          (∀ u, HookLine.entry "User" u ∉ pre) → hook.user = v)
      ∧ (∀ pre v post, lines = pre ++ HookLine.entry "Exec" v :: post →
          (∀ u, HookLine.entry "Exec" u ∉ pre) → hook.exec = v)
      ∧ (∀ pre v post, lines = pre ++ HookLine.entry "Pattern" v :: post →
          (∀ u, HookLine.entry "Pattern" u ∉ pre) → hook.pattern = v)
      ∧ ((∀ v, HookLine.entry "User" v ∉ lines) → hook.user = "")
      ∧ ((∀ v, HookLine.entry "Exec" v ∉ lines) → hook.exec = "")
      ∧ ((∀ v, HookLine.entry "Pattern" v ∉ lines) → hook.pattern = "")
      ∧ (∀ (anyRead : String → Option String) (content : String),
          anyRead (dir ++ "/" ++ base ++ ".hook") = some content →
          ∃ read, readClickHookFile anyRead (dir ++ "/" ++ base ++ ".hook") = .ok read
            ∧ ((∀ kv ∈ parseHookDocument content, kv.1 ≠ "Hook-Name") → read.name = base))
      ∧ (∀ k v : String, ':' ∉ k.data → (∀ t, v.data ≠ ' ' :: t) →
          parseHookLine (k ++ ": " ++ v).data = some (k, v))
      ∧ readClickHookFile
          (fun _ => some ("Hook-Name: systemd\n" ++
            "User: root\n" ++
            "Exec: /usr/lib/click-systemd/systemd-clickhook\n" ++
            "Pattern: /var/lib/systemd/click/$\x7bid\x7d"))
          "/tmp/hooks/snappy-systemd.hook"
          = .ok { name := "systemd", user := "root",
                  exec := "/usr/lib/click-systemd/systemd-clickhook",
                  pattern := "/var/lib/systemd/click/$\x7bid\x7d" }
      ∧ (readClickHookFile
          (fun _ => some ("\n" ++ "Pattern: /var/lib/apparmor/click/$\x7bid\x7d"))
          "/tmp/hooks/apparmor.hook").toOption.map (fun h => h.name) = some "apparmor" := by
  have hdoc := parseHookDocument_writeHookFile lines hlines
  have hok : readClickHookFile ReadFile (dir ++ "/" ++ base ++ ".hook") =
      .ok { name :=
              match (hookEntries lines).lookup "Hook-Name" with
              | some n => n
              | none => base
            exec := ((hookEntries lines).lookup "Exec").getD ""
            user := ((hookEntries lines).lookup "User").getD ""
            pattern := ((hookEntries lines).lookup "Pattern").getD "" } := by
    simp only [readClickHookFile, hread, hdoc, documentGet,
      baseNameWithoutExt_hook dir base hbase]
  refine ⟨_, hok, ?_, ?_, ?_, ?_, ?_, ?_, ?_, ?_, ?_, parseHookLine_entry, ?_, ?_⟩
  · intro h
    simp only [hookEntries_lookup_none lines _ h]
  · intro pre v post hl h
    simp only [hl, hookEntries_lookup_first pre post _ v h]
  · intro pre v post hl h
    simp only [hl, hookEntries_lookup_first pre post _ v h, Option.getD_some]
  · intro pre v post hl h
    simp only [hl, hookEntries_lookup_first pre post _ v h, Option.getD_some]
  · intro pre v post hl h
    simp only [hl, hookEntries_lookup_first pre post _ v h, Option.getD_some]
  · intro h
    simp only [hookEntries_lookup_none lines _ h, Option.getD_none]
  · intro h
    simp only [hookEntries_lookup_none lines _ h, Option.getD_none]
  · intro h
    simp only [hookEntries_lookup_none lines _ h, Option.getD_none]
  · intro anyRead content hany
    have hany_ok : readClickHookFile anyRead (dir ++ "/" ++ base ++ ".hook") =
        .ok { name :=
                match (parseHookDocument content).lookup "Hook-Name" with
                | some n => n
                | none => baseNameWithoutExt (dir ++ "/" ++ base ++ ".hook")
              exec := documentGet (parseHookDocument content) "Exec"
              user := documentGet (parseHookDocument content) "User"
              pattern := documentGet (parseHookDocument content) "Pattern" } := by
      simp only [readClickHookFile, hany]
    refine ⟨_, hany_ok, ?_⟩
    intro h
    simp only [lookup_none_of_no_key _ _ h]
    exact baseNameWithoutExt_hook dir base hbase
  · rfl
  · decide

/-- A file `/etc/hooks/apparmor.hook` of an empty line and a pattern makes
the claim of `readClickHookFile_name` concrete. -/
theorem readClickHookFile_name_witness :
    writeHookFile [.other "", .entry "Pattern" "/var/lib/apparmor/click/$\x7bid\x7d"]
        = "\n" ++ "Pattern: /var/lib/apparmor/click/$\x7bid\x7d"
      ∧ ∃ hook, readClickHookFile
          (fun _ => some ("\n" ++ "Pattern: /var/lib/apparmor/click/$\x7bid\x7d"))
          ("/etc/hooks" ++ "/" ++ "apparmor" ++ ".hook") = .ok hook
        ∧ hook.name = "apparmor"
        ∧ hook.pattern = "/var/lib/apparmor/click/$\x7bid\x7d" := by
  obtain ⟨hook, h1, h2, _, _, _, h6, _⟩ :=
    readClickHookFile_name
      (fun _ => some ("\n" ++ "Pattern: /var/lib/apparmor/click/$\x7bid\x7d"))
      "/etc/hooks" "apparmor"
      [.other "", .entry "Pattern" "/var/lib/apparmor/click/$\x7bid\x7d"]
      (by decide) (by decide) (by decide)
  exact ⟨by decide, hook, h1, h2 (fun v hv => by simp at hv),
    h6 [.other ""] _ [] rfl (fun u hu => by simp at hu)⟩

/-! ### Active revisions -/

theorem IsActive_setActiveClick_self (disk : SnapDisk) (d : RevisionDir) :
    (setActiveClick disk d).IsActive d = true := by
  simp [SnapDisk.IsActive, setActiveClick, List.lookup_cons]

theorem IsActive_setActiveClick_sibling (disk : SnapDisk) (d e : RevisionDir)
    (hname : e.name = d.name) (hver : e.version ≠ d.version) :
    (setActiveClick disk d).IsActive e = false := by
  simp only [SnapDisk.IsActive, setActiveClick, List.lookup_cons, hname, beq_self_eq_true]
  simp only [beq_eq_false_iff_ne, ne_eq, Option.some.injEq]
  exact fun h => hver h.symm

theorem IsActive_unique (disk : SnapDisk) (d e : RevisionDir)
    (hname : d.name = e.name) (hd : disk.IsActive d = true) (he : disk.IsActive e = true) :
    d = e := by
  simp only [SnapDisk.IsActive, beq_iff_eq] at hd he
  rw [hname, he] at hd
  cases d
  cases e
  simp only [Option.some.injEq] at hd
  simp_all

/-- C5: for every package name and two different versions of it, after the
first and then the second revision are installed both revision directories
are on disk, the second revision is active and the first is not; after
`setActiveClick` on the directory of either revision that revision is
active and its sibling is not; and on no disk are two different revisions of
one package name active. -/
theorem setActiveClick_exclusive (disk : SnapDisk) (name v1 v2 : String)
    (hv : v1 ≠ v2) :
    let d1 : RevisionDir := { name := name, version := v1 }
    let d2 : RevisionDir := { name := name, version := v2 }
    let installed := installClickOnDisk (installClickOnDisk disk d1) d2
    (d1 ∈ installed.revisions ∧ d2 ∈ installed.revisions)
      ∧ (installed.IsActive d2 = true ∧ installed.IsActive d1 = false)
      ∧ ((setActiveClick installed d1).IsActive d1 = true
          ∧ (setActiveClick installed d1).IsActive d2 = false)
      ∧ ((setActiveClick installed d2).IsActive d2 = true
          ∧ (setActiveClick installed d2).IsActive d1 = false)
      ∧ (∀ (any : SnapDisk) (d e : RevisionDir), d.name = e.name →
          any.IsActive d = true → any.IsActive e = true → d = e) := by
  intro d1 d2 installed
  have h12 : d1.version ≠ d2.version := hv
  have h21 : d2.version ≠ d1.version := fun h => hv h.symm
  refine ⟨⟨?_, ?_⟩, ⟨IsActive_setActiveClick_self _ _,
      IsActive_setActiveClick_sibling _ _ _ rfl h12⟩,
    ⟨IsActive_setActiveClick_self _ _, IsActive_setActiveClick_sibling _ _ _ rfl h21⟩,
    ⟨IsActive_setActiveClick_self _ _, IsActive_setActiveClick_sibling _ _ _ rfl h12⟩,
    IsActive_unique⟩
  · show d1 ∈ (installClickOnDisk (installClickOnDisk disk d1) d2).revisions
    simp only [installClickOnDisk, setActiveClick]
    split_ifs <;> simp_all
  · show d2 ∈ (installClickOnDisk (installClickOnDisk disk d1) d2).revisions
    simp only [installClickOnDisk, setActiveClick]
    split_ifs <;> simp_all

/-- The package `foo` with the versions 1.0 and 2.0 on an empty disk makes
the claim of `setActiveClick_exclusive` concrete. -/
theorem setActiveClick_exclusive_witness :
    ("1.0" : String) ≠ "2.0"
      ∧ (installClickOnDisk
          (installClickOnDisk { revisions := [], current := [] }
            { name := "foo", version := "1.0" })
          { name := "foo", version := "2.0" }).IsActive
            { name := "foo", version := "1.0" } = false :=
  ⟨by decide,
    (setActiveClick_exclusive { revisions := [], current := [] } "foo" "1.0" "2.0"
      (by decide)).2.1.2⟩

/-! ### Substrings -/

theorem startsWithChars_iff (s sub : List Char) :
    startsWithChars s sub = true ↔ ∃ post, s = sub ++ post := by
  induction sub generalizing s with
  | nil => simp [startsWithChars]
  | cons d ds ih =>
    cases s with
    | nil => simp [startsWithChars]
    | cons c cs =>
      simp only [startsWithChars, Bool.and_eq_true, beq_iff_eq, ih, List.cons_append,
        List.cons.injEq]
      constructor
      · rintro ⟨h, post, hp⟩
        exact ⟨post, h, hp⟩
      · rintro ⟨post, h, hp⟩
        exact ⟨h, post, hp⟩

theorem containsChars_iff (s sub : List Char) :
    containsChars s sub = true ↔ ∃ pre post, s = pre ++ sub ++ post := by
  induction s with
  | nil =>
    simp only [containsChars, startsWithChars_iff]
    constructor
    · rintro ⟨post, h⟩
      exact ⟨[], post, by simpa using h⟩
    · rintro ⟨pre, post, h⟩
      have h1 : pre ++ sub ++ post = [] := h.symm
      simp only [List.append_eq_nil] at h1
      exact ⟨[], by simp [h1.1.2]⟩
  | cons c cs ih =>
    simp only [containsChars, Bool.or_eq_true, startsWithChars_iff, ih]
    constructor
    · rintro (⟨post, h⟩ | ⟨pre, post, h⟩)
      · exact ⟨[], post, by simpa using h⟩
      · exact ⟨c :: pre, post, by simp [h]⟩
    · rintro ⟨pre, post, h⟩
      cases pre with
      | nil => exact Or.inl ⟨post, by simpa using h⟩
      | cons a pre1 =>
        simp only [List.cons_append, List.cons.injEq] at h
        exact Or.inr ⟨pre1, post, h.2⟩

/-- The function `inDeveloperMode` is true exactly when the cloud meta-data
file is opened and read and its content holds the needle. -/
theorem inDeveloperMode_iff {σ : Type} (env : Env σ) (w : σ) :
    inDeveloperMode env w = true ↔
      ∃ content, env.OpenRead w cloudMetaDataFile = .data content
        ∧ ∃ pre post, content.data = pre ++ "public-keys:\n".data ++ post := by
  unfold inDeveloperMode
  cases h : env.OpenRead w cloudMetaDataFile with
  | openError => simp
  | readError => simp
  | data content =>
    simp only [ReadOutcome.data.injEq, exists_eq_left', stringsContains]
    rw [← containsChars_iff]
    simp

/-! ### The loops of `Install` -/

theorem allOk_append {σ : Type} (l1 l2 : List (Event σ)) :
    allOk (l1 ++ l2) = (allOk l1 && allOk l2) := by
  simp [allOk, List.all_append]

theorem anyInstall_append {σ : Type} (l1 l2 : List (Event σ)) :
    anyInstall (l1 ++ l2) = (anyInstall l1 || anyInstall l2) := by
  simp [anyInstall, List.any_append]

theorem installFound_inv {σ : Type} (parts : List (Part σ)) (st : LoopState σ)
    (h : LoopInv st) :
    match installFound parts st with
    | .inl res => Failed res
    | .inr st1 => LoopInv st1 := by
  induction parts generalizing st with
  | nil => simpa [installFound] using h
  | cons part rest ih =>
    obtain ⟨hok, hdid, herr⟩ := h
    simp only [installFound]
    by_cases hi : part.IsInstalled st.world = true
    · simp only [hi, Bool.not_true, Bool.false_eq_true, if_false]
      exact ih st ⟨hok, hdid, herr⟩
    · simp only [hi, Bool.not_eq_true] at hi ⊢
      simp only [hi, Bool.not_false, if_true]
      cases hr : (part.Install st.world).1 with
      | some x =>
        simp only
        refine ⟨st.log ++ [Event.printed ("Installing " ++ part.Name ++ "\n")],
          Event.partInstall part.Name (some x), x, rfl, ?_, rfl, rfl⟩
        rw [allOk_append, hok]
        rfl
      | none =>
        simp only
        apply ih
        refine ⟨?_, ?_, rfl⟩
        · simp only [allOk_append, hok]
          rfl
        · simp [anyInstall_append, anyInstall, Event.isInstall]

theorem installArgs_inv {σ : Type} (env : Env σ) (args : List String)
    (st : LoopState σ) (h : LoopInv st) :
    match installArgs env args st with
    | .inl res => Failed res
    | .inr st1 => LoopInv st1 := by
  induction args generalizing st with
  | nil => simpa [installArgs] using h
  | cons name rest ih =>
    obtain ⟨hok, hdid, herr⟩ := h
    simp only [installArgs]
    by_cases hs : env.Stat st.world name = true
    · simp only [hs, if_true]
      generalize (if inDeveloperMode env st.world = true then 0 ||| AllowUnauthenticated
        else 0) = flags
      cases hr : (env.installClick name flags st.world).1 with
      | some x =>
        simp only
        exact ⟨st.log, Event.installClick name flags st.world (some x), x, rfl, hok, rfl, rfl⟩
      | none =>
        simp only
        apply ih
        refine ⟨?_, ?_, herr⟩
        · simp only [allOk_append, hok]
          rfl
        · simp [anyInstall_append, anyInstall, Event.isInstall]
    · simp only [hs, Bool.false_eq_true, if_false]
      have hf := installFound_inv (env.Details name st.world).1.1
        { st with world := (env.Details name st.world).2 } ⟨hok, hdid, herr⟩
      cases hres : installFound (env.Details name st.world).1.1
          { st with world := (env.Details name st.world).2 } with
      | inl res =>
        rw [hres] at hf
        simpa using hf
      | inr st1 =>
        rw [hres] at hf
        simp only
        exact ih st1 hf

/-- The three ways `Install` ends: at a failed install call; with `nil` after
install calls that all succeeded; with the error of an empty run when no
install call was made. -/
theorem Install_cases {σ : Type} (env : Env σ) (args : List String) (w : σ) :
    Failed (Install env args w)
      ∨ (allOk (Install env args w).log = true
          ∧ anyInstall (Install env args w).log = true
          ∧ (Install env args w).err = none)
      ∨ (allOk (Install env args w).log = true
          ∧ anyInstall (Install env args w).log = false
          ∧ (Install env args w).err = some (couldNotInstall args)) := by
  have h := installArgs_inv env args
    { world := w, didSomething := false, err := none, log := [] }
    ⟨rfl, rfl, rfl⟩
  unfold Install
  cases hres : installArgs env args
      { world := w, didSomething := false, err := none, log := [] } with
  | inl res =>
    rw [hres] at h
    exact Or.inl h
  | inr st =>
    rw [hres] at h
    obtain ⟨hok, hdid, herr⟩ := h
    cases hd : st.didSomething with
    | true =>
      refine Or.inr (Or.inl ?_)
      simp only [hd]
      exact ⟨hok, hdid.symm.trans hd, herr⟩
    | false =>
      refine Or.inr (Or.inr ?_)
      simp only [hd]
      exact ⟨hok, hdid.symm.trans hd, rfl⟩

theorem Failed_last {σ : Type} (res : InstallResult σ) (h : Failed res)
    (e : Event σ) (he : e ∈ res.log) (x : String) (hx : e.failure = some x) :
    res.err = some x ∧ ∃ pre, res.log = pre ++ [e] ∧ allOk pre = true := by
  obtain ⟨pre, e1, x1, hlog, hpre, hx1, herr⟩ := h
  rw [hlog] at he
  rcases List.mem_append.1 he with hin | hin
  · have hall := List.all_eq_true.1 hpre e hin
    rw [hx] at hall
    simp at hall
  · have heq : e = e1 := List.mem_singleton.1 hin
    subst heq
    rw [hx] at hx1
    cases hx1
    exact ⟨herr, pre, hlog, hpre⟩

theorem installFound_log {σ : Type} (env : Env σ) (parts : List (Part σ))
    (st : LoopState σ) (h : st.log.all (Event.flagsFollowMode env) = true) :
    (outcomeLog (installFound parts st)).all (Event.flagsFollowMode env) = true
      ∧ ∃ suffix, outcomeLog (installFound parts st) = st.log ++ suffix := by
  induction parts generalizing st with
  | nil => exact ⟨h, [], by simp [installFound, outcomeLog]⟩
  | cons part rest ih =>
    simp only [installFound]
    by_cases hi : part.IsInstalled st.world = true
    · simp only [hi, Bool.not_true, Bool.false_eq_true, if_false]
      exact ih st h
    · simp only [Bool.not_eq_true] at hi
      simp only [hi, Bool.not_false, if_true]
      have hlog : (st.log ++ [Event.printed ("Installing " ++ part.Name ++ "\n")] ++
          [Event.partInstall part.Name (part.Install st.world).1]).all
            (Event.flagsFollowMode env) = true := by
        simp only [List.all_append, h, Bool.true_and]
        rfl
      cases hr : (part.Install st.world).1 with
      | some x =>
        rw [hr] at hlog
        exact ⟨hlog, _, List.append_assoc _ _ _⟩
      | none =>
        rw [hr] at hlog
        simp only
        obtain ⟨h1, suffix, h2⟩ := ih
          { world := (part.Install st.world).2, didSomething := true, err := none,
            log := st.log ++ [Event.printed ("Installing " ++ part.Name ++ "\n")] ++
              [Event.partInstall part.Name none] } hlog
        refine ⟨h1, Event.printed ("Installing " ++ part.Name ++ "\n") ::
          Event.partInstall part.Name none :: suffix, ?_⟩
        rw [h2]
        simp

theorem installArgs_log {σ : Type} (env : Env σ) (args : List String)
    (st : LoopState σ) (h : st.log.all (Event.flagsFollowMode env) = true) :
    (outcomeLog (installArgs env args st)).all (Event.flagsFollowMode env) = true
      ∧ ∃ suffix, outcomeLog (installArgs env args st) = st.log ++ suffix := by
  induction args generalizing st with
  | nil => exact ⟨h, [], by simp [installArgs, outcomeLog]⟩
  | cons name rest ih =>
    simp only [installArgs]
    by_cases hs : env.Stat st.world name = true
    · simp only [hs, if_true]
      have hflags : (if inDeveloperMode env st.world = true then 0 ||| AllowUnauthenticated
          else 0) = (if inDeveloperMode env st.world = true then AllowUnauthenticated
          else 0) := by
        split <;> rfl
      rw [hflags]
      generalize hfl : (if inDeveloperMode env st.world = true then AllowUnauthenticated
        else 0) = flags
      have hlog : ∀ r, (st.log ++ [Event.installClick name flags st.world r]).all
          (Event.flagsFollowMode env) = true := by
        intro r
        simp only [List.all_append, h, Bool.true_and, List.all_cons, List.all_nil,
          Bool.and_true, Event.flagsFollowMode, hs, ← hfl]
        simp
      cases hr : (env.installClick name flags st.world).1 with
      | some x => exact ⟨hlog _, _, rfl⟩
      | none =>
        simp only
        obtain ⟨h1, suffix, h2⟩ := ih
          { st with world := (env.installClick name flags st.world).2,
                    didSomething := true,
                    log := st.log ++ [Event.installClick name flags st.world none] }
          (hlog none)
        refine ⟨h1, Event.installClick name flags st.world none :: suffix, ?_⟩
        rw [h2]
        simp
    · simp only [hs, Bool.false_eq_true, if_false]
      obtain ⟨hf1, sf, hf2⟩ := installFound_log env (env.Details name st.world).1.1
        { st with world := (env.Details name st.world).2 } h
      cases hres : installFound (env.Details name st.world).1.1
          { st with world := (env.Details name st.world).2 } with
      | inl res =>
        rw [hres] at hf1 hf2
        exact ⟨hf1, sf, hf2⟩
      | inr st1 =>
        rw [hres] at hf1 hf2
        simp only [outcomeLog] at hf1 hf2
        simp only
        obtain ⟨h1, suffix, h2⟩ := ih st1 hf1
        refine ⟨h1, sf ++ suffix, ?_⟩
        rw [h2, hf2]
        simp

theorem Install_log_eq {σ : Type} (env : Env σ) (args : List String) (w : σ) :
    (Install env args w).log = outcomeLog (installArgs env args
      { world := w, didSomething := false, err := none, log := [] }) := by
  unfold Install
  cases installArgs env args { world := w, didSomething := false, err := none, log := [] } with
  | inl res => rfl
  | inr st =>
    simp only [outcomeLog]
    split <;> rfl

theorem Install_first_local {σ : Type} (env : Env σ) (first : String)
    (rest : List String) (w : σ) (hs : env.Stat w first = true) :
    ∃ tail, (Install env (first :: rest) w).log =
      Event.installClick first
        (if inDeveloperMode env w then AllowUnauthenticated else 0) w
        (env.installClick first
          (if inDeveloperMode env w then AllowUnauthenticated else 0) w).1 :: tail := by
  rw [Install_log_eq]
  simp only [installArgs, hs, if_true]
  have hflags : (if inDeveloperMode env w = true then 0 ||| AllowUnauthenticated
      else 0) = (if inDeveloperMode env w = true then AllowUnauthenticated else 0) := by
    split <;> rfl
  rw [hflags]
  generalize hfl : (if inDeveloperMode env w = true then AllowUnauthenticated else 0)
    = flags
  cases hr : (env.installClick first flags w).1 with
  | some x => exact ⟨[], rfl⟩
  | none =>
    simp only
    obtain ⟨_, suffix, h2⟩ := installArgs_log env rest
      { world := (env.installClick first flags w).2, didSomething := true, err := none,
        log := [] ++ [Event.installClick first flags w none] }
      (by simp [Event.flagsFollowMode, hs, ← hfl])
    exact ⟨suffix, h2⟩

theorem inDeveloperMode_discardDetailsError {σ : Type} (env : Env σ) (w : σ) :
    inDeveloperMode env.discardDetailsError w = inDeveloperMode env w := rfl

theorem installArgs_discardDetailsError {σ : Type} (env : Env σ) (args : List String)
    (st : LoopState σ) :
    installArgs env.discardDetailsError args st = installArgs env args st := by
  induction args generalizing st with
  | nil => rfl
  | cons name rest ih =>
    simp only [installArgs, inDeveloperMode_discardDetailsError, ih]
    rfl

theorem installFound_all_installed {σ : Type} (parts : List (Part σ)) (st : LoopState σ)
    (h : ∀ part ∈ parts, ∀ w, part.IsInstalled w = true) :
    installFound parts st = .inr st := by
  induction parts with
  | nil => rfl
  | cons part rest ih =>
    simp only [installFound, h part (List.mem_cons_self _ _) st.world, Bool.not_true,
      Bool.false_eq_true, if_false]
    exact ih (fun q hq => h q (List.mem_cons_of_mem _ hq))

theorem installArgs_all_installed {σ : Type} (env : Env σ) (args : List String)
    (st : LoopState σ)
    (h : ∀ name ∈ args, ∀ w, env.Stat w name = false
      ∧ ∀ part ∈ (env.Details name w).1.1, ∀ w1, part.IsInstalled w1 = true) :
    ∃ w1, installArgs env args st = .inr { st with world := w1 } := by
  induction args generalizing st with
  | nil => exact ⟨st.world, rfl⟩
  | cons name rest ih =>
    obtain ⟨hs, hp⟩ := h name (List.mem_cons_self _ _) st.world
    simp only [installArgs, hs, Bool.false_eq_true, if_false,
      installFound_all_installed _ _ hp]
    exact ih _ (fun n hn => h n (List.mem_cons_of_mem _ hn))

theorem installArgs_append {σ : Type} (env : Env σ) (pre rest : List String)
    (st : LoopState σ) :
    installArgs env (pre ++ rest) st =
      match installArgs env pre st with
      | .inl res => .inl res
      | .inr st1 => installArgs env rest st1 := by
  induction pre generalizing st with
  | nil => rfl
  | cons name more ih =>
    simp only [List.cons_append, installArgs]
    split
    · split
      · rfl
      · exact ih _
    · split
      · rfl
      · exact ih _

theorem installFound_events {σ : Type} (Q : Event σ → Prop)
    (hpart : ∀ n r, Q (Event.partInstall n r)) (hprint : ∀ t, Q (Event.printed t))
    (parts : List (Part σ)) (st : LoopState σ) (h : ∀ e ∈ st.log, Q e) :
    ∀ e ∈ outcomeLog (installFound parts st), Q e := by
  induction parts generalizing st with
  | nil => exact h
  | cons part rest ih =>
    simp only [installFound]
    have hlog : ∀ r, ∀ e ∈ st.log ++ [Event.printed ("Installing " ++ part.Name ++ "\n")] ++
        [Event.partInstall part.Name r], Q e := by
      intro r e he
      simp only [List.mem_append, List.mem_singleton] at he
      rcases he with (he | he) | he
      · exact h e he
      · exact he ▸ hprint _
      · exact he ▸ hpart _ _
    split
    · split
      · next hr => exact hr ▸ hlog _
      · next hr => exact ih _ (hr ▸ hlog _)
    · exact ih st h

theorem installArgs_events {σ : Type} (env : Env σ) (Q : Event σ → Prop)
    (hpart : ∀ n r, Q (Event.partInstall n r)) (hprint : ∀ t, Q (Event.printed t))
    (args : List String)
    (hclick : ∀ name ∈ args, ∀ flags before r, Q (Event.installClick name flags before r))
    (st : LoopState σ) (h : ∀ e ∈ st.log, Q e) :
    ∀ e ∈ outcomeLog (installArgs env args st), Q e := by
  induction args generalizing st with
  | nil => exact h
  | cons name rest ih =>
    have hrest : ∀ n ∈ rest, ∀ flags before r, Q (Event.installClick n flags before r) :=
      fun n hn => hclick n (List.mem_cons_of_mem _ hn)
    simp only [installArgs]
    split
    · have hlog : ∀ flags r, ∀ e ∈ st.log ++ [Event.installClick name flags st.world r],
          Q e := by
        intro flags r e he
        simp only [List.mem_append, List.mem_singleton] at he
        rcases he with he | he
        · exact h e he
        · exact he ▸ hclick name (List.mem_cons_self _ _) _ _ _
      split
      · next hr => exact hr ▸ hlog _ _
      · next hr => exact ih hrest _ (hr ▸ hlog _ _)
    · have hf := installFound_events Q hpart hprint (env.Details name st.world).1.1
        { st with world := (env.Details name st.world).2 } h
      split
      · next res hres =>
        rw [hres] at hf
        exact hf
      · next st1 hres =>
        rw [hres] at hf
        exact ih hrest st1 hf

theorem Install_click_names {σ : Type} (env : Env σ) (args : List String) (w : σ)
    (name : String) (flags : InstallFlags) (before : σ) (result : Option String)
    (h : Event.installClick name flags before result ∈ (Install env args w).log) :
    name ∈ args := by
  rw [Install_log_eq] at h
  have hq := installArgs_events env
    (fun e => match e with
      | .installClick n _ _ _ => n ∈ args
      | _ => True)
    (fun _ _ => trivial) (fun _ => trivial) args (fun n hn _ _ _ => hn)
    { world := w, didSomething := false, err := none, log := [] }
    (fun e he => absurd he (List.not_mem_nil e))
  exact hq _ h

theorem Install_reached_local {σ : Type} (env : Env σ) (pre : List String)
    (name : String) (post : List String) (w : σ) (st : LoopState σ)
    (hpre : installArgs env pre { world := w, didSomething := false, err := none, log := [] }
      = .inr st)
    (hs : env.Stat st.world name = true) :
    ∃ tail, (Install env (pre ++ name :: post) w).log =
      st.log ++ Event.installClick name
        (if inDeveloperMode env st.world then AllowUnauthenticated else 0) st.world
        (env.installClick name
          (if inDeveloperMode env st.world then AllowUnauthenticated else 0) st.world).1
        :: tail := by
  rw [Install_log_eq, installArgs_append, hpre]
  simp only [installArgs, hs, if_true]
  have hflags : (if inDeveloperMode env st.world = true then 0 ||| AllowUnauthenticated
      else 0) = (if inDeveloperMode env st.world = true then AllowUnauthenticated else 0) := by
    split <;> rfl
  rw [hflags]
  generalize hfl : (if inDeveloperMode env st.world = true then AllowUnauthenticated else 0)
    = flags
  cases hr : (env.installClick name flags st.world).1 with
  | some x => exact ⟨[], by simp [outcomeLog]⟩
  | none =>
    simp only
    have hstlog : st.log.all (Event.flagsFollowMode env) = true := by
      have h1 := (installArgs_log env pre
        { world := w, didSomething := false, err := none, log := [] } rfl).1
      rw [hpre] at h1
      exact h1
    obtain ⟨_, suffix, h2⟩ := installArgs_log env post
      { st with world := (env.installClick name flags st.world).2, didSomething := true,
                log := st.log ++ [Event.installClick name flags st.world none] }
      (by simp [List.all_append, hstlog, Event.flagsFollowMode, hs, ← hfl])
    exact ⟨suffix, by rw [h2]; simp⟩

/-! ### The function `Install` -/

/-- C7, as the claim states it, fails: in developer mode `local.snap` is an
argument that names an existing local file, but the call of `installClick`
for the argument `broken.snap` before it fails, `Install` returns that
error, and no call of `installClick` is made for `local.snap`. -/
theorem Install_skips_after_failure :
    (exampleEnv (.data "instance-id: nocloud\npublic-keys:\n - ssh-rsa key\n")).Stat ()
        "local.snap" = true
      ∧ inDeveloperMode
          (exampleEnv (.data "instance-id: nocloud\npublic-keys:\n - ssh-rsa key\n")) ()
          = true
      ∧ (Install (exampleEnv (.data "instance-id: nocloud\npublic-keys:\n - ssh-rsa key\n"))
          ["broken.snap", "local.snap"] ()).err = some "unpack failed"
      ∧ (Install (exampleEnv (.data "instance-id: nocloud\npublic-keys:\n - ssh-rsa key\n"))
          ["broken.snap", "local.snap"] ()).log
          = [Event.installClick "broken.snap" AllowUnauthenticated ()
              (some "unpack failed")]
      ∧ ∀ flags before result, Event.installClick "local.snap" flags before result ∉
          (Install (exampleEnv (.data "instance-id: nocloud\npublic-keys:\n - ssh-rsa key\n"))
            ["broken.snap", "local.snap"] ()).log := by
  have hlog : (Install
      (exampleEnv (.data "instance-id: nocloud\npublic-keys:\n - ssh-rsa key\n"))
      ["broken.snap", "local.snap"] ()).log
      = [Event.installClick "broken.snap" AllowUnauthenticated () (some "unpack failed")] :=
    rfl
  refine ⟨by decide, by decide, rfl, hlog, ?_⟩
  intro flags before result hmem
  rw [hlog] at hmem
  have heq := List.mem_singleton.1 hmem
  injection heq with hname
  revert hname
  decide

/-- C7, amended: every call of `installClick` that `Install` makes is made
for one of its arguments, one that `os.Stat` finds, and it carries the flag
`AllowUnauthenticated` if and only if `inDeveloperMode` is true in the world
of the call, that is if and only if the cloud meta-data file is opened and
read and its content holds `public-keys:` followed by a newline; otherwise
the flags are `0`.  Every argument that `os.Stat` finds and that the loop
reaches, the arguments before it having run through without a return, is
installed by such a call, the first argument among them. -/
theorem Install_flags_follow_developer_mode {σ : Type} (env : Env σ)
    (args : List String) (w : σ) (name : String) (flags : InstallFlags) (before : σ)
    (result : Option String)
    (h : Event.installClick name flags before result ∈ (Install env args w).log) :
    name ∈ args
      ∧ (∀ (pre : List String) (reached : String) (post : List String)
          (st : LoopState σ),
          installArgs env pre { world := w, didSomething := false, err := none, log := [] }
            = .inr st →
          env.Stat st.world reached = true →
          ∃ tail, (Install env (pre ++ reached :: post) w).log =
            st.log ++ Event.installClick reached
              (if inDeveloperMode env st.world then AllowUnauthenticated else 0) st.world
              (env.installClick reached
                (if inDeveloperMode env st.world then AllowUnauthenticated else 0)
                st.world).1
              :: tail)
      ∧ env.Stat before name = true
      ∧ (flags = AllowUnauthenticated ↔ inDeveloperMode env before = true)
      ∧ (inDeveloperMode env before = false → flags = 0)
      ∧ (inDeveloperMode env before = true ↔
          ∃ content, env.OpenRead before cloudMetaDataFile = .data content
            ∧ ∃ pre post, content.data = pre ++ "public-keys:\n".data ++ post)
      ∧ (∀ (first : String) (rest : List String), env.Stat w first = true →
          ∃ tail, (Install env (first :: rest) w).log =
            Event.installClick first
              (if inDeveloperMode env w then AllowUnauthenticated else 0) w
              (env.installClick first
                (if inDeveloperMode env w then AllowUnauthenticated else 0) w).1
              :: tail) := by
  have hname := Install_click_names env args w name flags before result h
  rw [Install_log_eq] at h
  have hall := (installArgs_log env args
    { world := w, didSomething := false, err := none, log := [] } rfl).1
  have he := List.all_eq_true.1 hall _ h
  simp only [Event.flagsFollowMode, Bool.and_eq_true, beq_iff_eq] at he
  obtain ⟨hs, hf⟩ := he
  refine ⟨hname,
    fun pre reached post st hpre hst => Install_reached_local env pre reached post w st hpre hst,
    hs, ?_, ?_, inDeveloperMode_iff env before,
    fun first rest hfirst => Install_first_local env first rest w hfirst⟩
  · cases hd : inDeveloperMode env before with
    | true => simp [hf, hd]
    | false => simp [hf, hd, AllowUnauthenticated]
  · intro hd
    simp [hf, hd]

/-- The meta-data of an image in developer mode and the local file
`local.snap` make the claim of `Install_flags_follow_developer_mode`
concrete. -/
theorem Install_flags_follow_developer_mode_witness :
    Event.installClick "local.snap" AllowUnauthenticated () none ∈
        (Install (exampleEnv (.data "instance-id: nocloud\npublic-keys:\n - ssh-rsa key\n"))
          ["local.snap"] ()).log
      ∧ inDeveloperMode
          (exampleEnv (.data "instance-id: nocloud\npublic-keys:\n - ssh-rsa key\n")) ()
          = true :=
  ⟨List.mem_singleton.2 rfl,
    (Install_flags_follow_developer_mode
      (exampleEnv (.data "instance-id: nocloud\npublic-keys:\n - ssh-rsa key\n"))
      ["local.snap"] () "local.snap" AllowUnauthenticated () none
      (List.mem_singleton.2 rfl)).2.2.2.1.1 rfl⟩

/-- C8, as the claim states it, fails: the lookup of `no-such-snap` returns
an error, the local file `local.snap` of the same call is installed, and
`Install` returns `nil`. -/
theorem Install_swallows_Details_error :
    (exampleEnv .openError).Stat () "no-such-snap" = false
      ∧ ((exampleEnv .openError).Details "no-such-snap" ()).1.2
          = some "snappy package not found"
      ∧ (Install (exampleEnv .openError) ["local.snap", "no-such-snap"] ()).log
          = [Event.installClick "local.snap" 0 () none]
      ∧ (Install (exampleEnv .openError) ["local.snap", "no-such-snap"] ()).err = none := by
  refine ⟨by decide, by decide, rfl, rfl⟩

/-- C8, amended: `Install` discards the error of the repository lookup: it
returns what it returns when the lookup gives the same parts without an
error; it returns an error exactly when an install call failed or no install
call was made; so whatever the lookups returned, when an install call was
made and no install call failed, `Install` returns `nil`, and when one
failed, as for `broken.snap` after `local.snap` and the unknown
`no-such-snap`, it returns the error of that call. -/
theorem Install_discards_Details_error {σ : Type} (env : Env σ) (args : List String)
    (w : σ) :
    Install env.discardDetailsError args w = Install env args w
      ∧ ((Install env args w).err ≠ none ↔
          (∃ e ∈ (Install env args w).log, e.failure ≠ none)
            ∨ anyInstall (Install env args w).log = false)
      ∧ (allOk (Install env args w).log = true →
          anyInstall (Install env args w).log = true →
          (Install env args w).err = none)
      ∧ (Install (exampleEnv .openError) ["local.snap", "no-such-snap", "broken.snap"] ()).err
          = some "unpack failed" := by
  refine ⟨?_, ?_, ?_, rfl⟩
  · unfold Install
    rw [installArgs_discardDetailsError]
  · rcases Install_cases env args w with hf | ⟨hok, hany, herr⟩ | ⟨hok, hany, herr⟩
    · obtain ⟨pre, e, x, hlog, _, hx, herr⟩ := hf
      constructor
      · intro _
        exact Or.inl ⟨e, by rw [hlog]; simp, by rw [hx]; simp⟩
      · intro _
        rw [herr]
        simp
    · constructor
      · intro h
        exact absurd herr h
      · rintro (⟨e, he, hx⟩ | h)
        · have := List.all_eq_true.1 hok e he
          cases hfe : e.failure with
          | none => exact absurd hfe hx
          | some x => rw [hfe] at this; simp at this
        · rw [hany] at h
          cases h
    · constructor
      · intro _
        exact Or.inr hany
      · intro _
        rw [herr]
        simp
  · intro hall hany
    rcases Install_cases env args w with hf | ⟨_, _, herr⟩ | ⟨_, hno, _⟩
    · obtain ⟨pre, e, x, hlog, _, hx, _⟩ := hf
      have := List.all_eq_true.1 hall e (by rw [hlog]; simp)
      rw [hx] at this
      simp at this
    · exact herr
    · rw [hno] at hany
      cases hany

/-- The failed lookup of `no-such-snap` next to the local file `local.snap`
makes the last part of `Install_discards_Details_error` concrete. -/
theorem Install_discards_Details_error_witness :
    ((exampleEnv .openError).Details "no-such-snap" ()).1.2 ≠ none
      ∧ (Install (exampleEnv .openError) ["no-such-snap", "local.snap"] ()).err = none :=
  ⟨by decide,
    (Install_discards_Details_error (exampleEnv .openError)
      ["no-such-snap", "local.snap"] ()).2.2.1 (by decide) (by decide)⟩

/-- C10: when every install call succeeded, `Install` returns the error
`Could not install anything for` the comma-joined arguments if and only if
no install call was made, and `nil` when one was made; that error is
returned for the empty argument list and when no argument is a local file
and every part found is installed already.  A failed install call is the
last event of the run, and its error is what `Install` returns.  The joined
text is empty for no argument, the argument itself for one, and the first
argument, the separator and the joined rest for more; for the two unknown
names `no-such-snap` and `other-snap` the error names `no-such-snap,other-snap`. -/
theorem Install_result {σ : Type} (env : Env σ) (args : List String) (w : σ) :
    (allOk (Install env args w).log = true →
        (((Install env args w).err =
            some ("Could not install anything for \x27" ++ stringsJoin args "," ++ "\x27")
          ↔ anyInstall (Install env args w).log = false)
        ∧ (anyInstall (Install env args w).log = true → (Install env args w).err = none)))
      ∧ (∀ e ∈ (Install env args w).log, ∀ x, e.failure = some x →
          (Install env args w).err = some x
            ∧ ∃ pre, (Install env args w).log = pre ++ [e] ∧ allOk pre = true)
      ∧ (Install env [] w).err = some "Could not install anything for \x27\x27"
      ∧ ((∀ name ∈ args, ∀ w1, env.Stat w1 name = false
            ∧ ∀ part ∈ (env.Details name w1).1.1, ∀ w2, part.IsInstalled w2 = true) →
          (Install env args w).log = []
            ∧ (Install env args w).err =
              some ("Could not install anything for \x27" ++ stringsJoin args "," ++
                "\x27"))
      ∧ (∀ sep : String, stringsJoin [] sep = ""
          ∧ (∀ a : String, stringsJoin [a] sep = a)
          ∧ (∀ (a b : String) (rest : List String),
              stringsJoin (a :: b :: rest) sep = a ++ sep ++ stringsJoin (b :: rest) sep))
      ∧ (Install (exampleEnv .openError) ["no-such-snap", "other-snap"] ()).err
          = some "Could not install anything for \x27no-such-snap,other-snap\x27" := by
  refine ⟨?_, ?_, rfl, ?_,
    fun sep => ⟨rfl, fun _ => rfl, fun a b rest => stringsJoin_cons_cons a b rest sep⟩,
    by decide⟩
  · intro hall
    rcases Install_cases env args w with hf | ⟨_, hany, herr⟩ | ⟨_, hany, herr⟩
    · obtain ⟨pre, e, x, hlog, _, hx, _⟩ := hf
      have := List.all_eq_true.1 hall e (by rw [hlog]; simp)
      rw [hx] at this
      simp at this
    · rw [hany, herr]
      simp
    · rw [hany, herr]
      simp [couldNotInstall]
  · intro e he x hx
    rcases Install_cases env args w with hf | ⟨hok, _, _⟩ | ⟨hok, _, _⟩
    · exact Failed_last _ hf e he x hx
    · have := List.all_eq_true.1 hok e he
      rw [hx] at this
      simp at this
    · have := List.all_eq_true.1 hok e he
      rw [hx] at this
      simp at this
  · intro h
    obtain ⟨w1, hw⟩ := installArgs_all_installed env args
      { world := w, didSomething := false, err := none, log := [] } h
    unfold Install
    rw [hw]
    exact ⟨rfl, rfl⟩

/-- The part `hello-world` of the repository, not installed and installing
without error, makes the claim of `Install_result` concrete. -/
theorem Install_result_witness :
    allOk (Install (exampleEnv .openError) ["hello-world"] ()).log = true
      ∧ (Install (exampleEnv .openError) ["hello-world"] ()).err = none :=
  ⟨by decide,
    ((Install_result (exampleEnv .openError) ["hello-world"] ()).1 (by decide)).2
      (by decide)⟩

/-! ### The seccomp fragment of the network interface -/

set_option maxRecDepth 8000 in
/-- C11: the lines of the seccomp fragment of the network interface that are
neither blank nor comments are `connect`, `getpeername`, `getsockname`,
`getsockopt`, `recv`, `recvfrom`, `recvmmsg`, `recvmsg`, `send`, `sendmmsg`,
`sendmsg`, `sendto`, `setsockopt`, `shutdown`, `socket` and `socketcall`, in
that order, and none of `bind`, `listen`, `accept` and `accept4` is among
them. -/
theorem networkConnectedPlugSecComp_client_only :
    policyLines networkConnectedPlugSecComp =
        ["connect", "getpeername", "getsockname", "getsockopt", "recv", "recvfrom",
          "recvmmsg", "recvmsg", "send", "sendmmsg", "sendmsg", "sendto", "setsockopt",
          "shutdown", "socket", "socketcall"]
      ∧ "bind" ∉ policyLines networkConnectedPlugSecComp
      ∧ "listen" ∉ policyLines networkConnectedPlugSecComp
      ∧ "accept" ∉ policyLines networkConnectedPlugSecComp
      ∧ "accept4" ∉ policyLines networkConnectedPlugSecComp := by
  have h : policyLines networkConnectedPlugSecComp =
      ["connect", "getpeername", "getsockname", "getsockopt", "recv", "recvfrom",
        "recvmmsg", "recvmsg", "send", "sendmmsg", "sendmsg", "sendto", "setsockopt",
        "shutdown", "socket", "socketcall"] := by
    rfl
  rw [h]
  exact ⟨rfl, by decide, by decide, by decide, by decide⟩

/-! ### Running commands -/

/-- C12: for the empty argument list `runCommandImpl` returns the error
`no command specified` and `runCommandWithStdoutImpl` returns the empty
output with that error, both without executing a process and leaving the
world as it is; `runInChroot` hands `runCommand` the list of
`/usr/sbin/chroot`, the directory and the arguments in order, so that with
`runCommandImpl` for `runCommand` exactly that command line is executed and
the error `no command specified` is not returned. -/
theorem runInChroot_never_empty {σ : Type} (env : ExecEnv σ) (w : σ)
    (chrootDir : String) (args : List String) :
    runCommandImpl env [] w
        = { err := some "no command specified", world := w, executed := [] }
      ∧ runCommandWithStdoutImpl env [] w
        = { output := "", err := some "no command specified", world := w, executed := [] }
      ∧ (∀ runCommand : List String → σ → RunResult σ,
          runInChroot runCommand chrootDir args w
            = runCommand ("/usr/sbin/chroot" :: chrootDir :: args) w)
      ∧ (runInChroot (runCommandImpl env) chrootDir args w).executed
          = ["/usr/sbin/chroot" :: chrootDir :: args]
      ∧ (runInChroot (runCommandImpl env) chrootDir args w).err
          ≠ some "no command specified" := by
  refine ⟨rfl, rfl, fun _ => rfl, ?_, ?_⟩
  · simp only [runInChroot, List.cons_append, List.nil_append, runCommandImpl]
    split <;> rfl
  · simp only [runInChroot, List.cons_append, List.nil_append, runCommandImpl]
    split
    · intro h
      have hd := congrArg (fun e => e.map (fun s => s.data.head?)) h
      simp only [Option.map_some', String.append_assoc, String.data_append] at hd
      revert hd
      simp
    · simp

end Snappy
